import Mathlib

/-!
Verification of the live-reconfiguration control protocol client
(`Client`, `build`, `deserialise`, `buildMsg`, `buildPatchConfiguration`).

The JSON data model, the message builders and the inbound dispatch
procedure `Client._handle` are embedded from the source.  The JSON-patch
codec (`jsonPatch.compare` / `jsonPatch.applyPatch` from the
`fast-json-patch` dependency) and the correlation-token generator
(`randomPhrase`) are not part of the repository's sources; they are
modelled from the specification where marked.
-/

set_option maxHeartbeats 1000000

namespace Ctl

/-- JSON-like runtime values exchanged over the control protocol.
`buf` models Node `Buffer` values as reconstructed by the decode
reviver inside `deserialise`.  Object members keep insertion order,
as JavaScript objects do. -/
inductive Json where
  | null
  | bool (b : Bool)
  | num (n : Int)
  | str (s : String)
  | arr (elems : List Json)
  | obj (members : List (String × Json))
  | buf (bytes : List Nat)
  deriving Repr

mutual

/-- Structural (key-order-sensitive) boolean equality on `Json`. -/
def Json.beq : Json → Json → Bool
  | .null, .null => true
  | .bool a, .bool b => a == b
  | .num a, .num b => a == b
  | .str a, .str b => a == b
  | .buf a, .buf b => a == b
  | .arr xs, .arr ys => Json.beqList xs ys
  | .obj xs, .obj ys => Json.beqObj xs ys
  | _, _ => false

def Json.beqList : List Json → List Json → Bool
  | [], [] => true
  | x :: xs, y :: ys => Json.beq x y && Json.beqList xs ys
  | _, _ => false

def Json.beqObj : List (String × Json) → List (String × Json) → Bool
  | [], [] => true
  | (k, v) :: xs, (l, w) :: ys => k == l && Json.beq v w && Json.beqObj xs ys
  | _, _ => false

end

mutual

theorem Json.beq_iff : ∀ a b : Json, Json.beq a b = true ↔ a = b
  | .null, b => by cases b <;> simp [Json.beq]
  | .bool a, b => by cases b <;> simp [Json.beq]
  | .num a, b => by cases b <;> simp [Json.beq]
  | .str a, b => by cases b <;> simp [Json.beq]
  | .buf a, b => by cases b <;> simp [Json.beq]
  | .arr xs, b => by
      cases b <;> simp [Json.beq]
      exact Json.beqList_iff xs _
  | .obj xs, b => by
      cases b <;> simp [Json.beq]
      exact Json.beqObj_iff xs _

theorem Json.beqList_iff : ∀ xs ys : List Json, Json.beqList xs ys = true ↔ xs = ys
  | [], ys => by cases ys <;> simp [Json.beqList]
  | x :: xs, ys => by
      cases ys <;> simp [Json.beqList]
      rw [Json.beq_iff, Json.beqList_iff]

theorem Json.beqObj_iff :
    ∀ xs ys : List (String × Json), Json.beqObj xs ys = true ↔ xs = ys
  | [], ys => by cases ys <;> simp [Json.beqObj]
  | (k, v) :: xs, ys => by
      cases ys with
      | nil => simp [Json.beqObj]
      | cons hd tl =>
        obtain ⟨l, w⟩ := hd
        simp [Json.beqObj]
        rw [Json.beq_iff, Json.beqObj_iff]

end

instance : DecidableEq Json := fun a b =>
  decidable_of_iff (Json.beq a b = true) (Json.beq_iff a b)

theorem Json.beq_refl (a : Json) : Json.beq a a = true := (Json.beq_iff a a).mpr rfl

/-! ### Association-list toolkit for JSON objects (JS object semantics) -/

/-- First binding of a key, as JS property lookup on parse-produced objects. -/
def lookupKey : List (String × Json) → String → Option Json
  | [], _ => none
  | (k, v) :: rest, key => if k = key then some v else lookupKey rest key

/-- JS `obj[key] = v`: replace the binding in place when the key exists,
append a new binding otherwise. -/
def setKey : List (String × Json) → String → Json → List (String × Json)
  | [], key, v => [(key, v)]
  | (k, w) :: rest, key, v =>
      if k = key then (k, v) :: rest else (k, w) :: setKey rest key v

/-- JS `delete obj[key]`: drop the first binding of the key. -/
def removeKey : List (String × Json) → String → List (String × Json)
  | [], _ => []
  | (k, w) :: rest, key =>
      if k = key then rest else (k, w) :: removeKey rest key

/-- Keys are pairwise distinct, as in any object produced by `JSON.parse`. -/
def keysUnique : List (String × Json) → Bool
  | [] => true
  | (k, _) :: rest => (lookupKey rest k).isNone && keysUnique rest

theorem lookupKey_mem {xs : List (String × Json)} {k : String} {v : Json}
    (h : lookupKey xs k = some v) : (k, v) ∈ xs := by
  induction xs with
  | nil => simp [lookupKey] at h
  | cons hd tl ih =>
    obtain ⟨k', v'⟩ := hd
    by_cases hk : k' = k
    · subst hk
      simp [lookupKey] at h
      simp [h]
    · simp [lookupKey, hk] at h
      exact List.mem_cons_of_mem _ (ih h)

theorem mem_lookupKey_isSome {xs : List (String × Json)} {k : String} {v : Json}
    (h : (k, v) ∈ xs) : (lookupKey xs k).isSome := by
  induction xs with
  | nil => simp at h
  | cons hd tl ih =>
    obtain ⟨k', v'⟩ := hd
    rcases List.mem_cons.mp h with h1 | h2
    · obtain ⟨hk, hv⟩ := Prod.mk.injEq .. ▸ h1
      simp [lookupKey, hk.symm]
    · by_cases hk : k' = k
      · simp [lookupKey, hk]
      · simpa [lookupKey, hk] using ih h2

theorem mem_lookupKey_unique {xs : List (String × Json)} {k : String} {v : Json}
    (hu : keysUnique xs = true) (h : (k, v) ∈ xs) : lookupKey xs k = some v := by
  induction xs with
  | nil => simp at h
  | cons hd tl ih =>
    obtain ⟨k', v'⟩ := hd
    simp [keysUnique] at hu
    rcases List.mem_cons.mp h with h1 | h2
    · obtain ⟨hk, hv⟩ := Prod.mk.injEq .. ▸ h1
      simp [lookupKey, hk.symm, hv]
    · by_cases hk : k' = k
      · subst hk
        have := mem_lookupKey_isSome h2
        rw [hu.1] at this
        simp at this
      · simpa [lookupKey, hk] using ih hu.2 h2

theorem lookupKey_setKey_self (xs : List (String × Json)) (k : String) (v : Json) :
    lookupKey (setKey xs k v) k = some v := by
  induction xs with
  | nil => simp [setKey, lookupKey]
  | cons hd tl ih =>
    obtain ⟨k', v'⟩ := hd
    by_cases hk : k' = k <;> simp [setKey, lookupKey, hk, ih]

theorem lookupKey_setKey_ne (xs : List (String × Json)) {k k' : String} (v : Json)
    (h : k' ≠ k) : lookupKey (setKey xs k v) k' = lookupKey xs k' := by
  have h' : k ≠ k' := fun e => h e.symm
  induction xs with
  | nil => simp [setKey, lookupKey, h']
  | cons hd tl ih =>
    obtain ⟨k2, v2⟩ := hd
    by_cases hk : k2 = k
    · subst hk
      simp [setKey, lookupKey, h']
    · simp [setKey, hk, lookupKey, ih]

theorem lookupKey_removeKey_ne (xs : List (String × Json)) {k k' : String}
    (h : k' ≠ k) : lookupKey (removeKey xs k) k' = lookupKey xs k' := by
  have h' : k ≠ k' := fun e => h e.symm
  induction xs with
  | nil => simp [removeKey]
  | cons hd tl ih =>
    obtain ⟨k2, v2⟩ := hd
    by_cases hk : k2 = k
    · subst hk
      simp [removeKey, lookupKey, h']
    · simp [removeKey, hk, lookupKey, ih]

theorem lookupKey_removeKey_self {xs : List (String × Json)} {k : String}
    (hu : keysUnique xs = true) : lookupKey (removeKey xs k) k = none := by
  induction xs with
  | nil => simp [removeKey, lookupKey]
  | cons hd tl ih =>
    obtain ⟨k2, v2⟩ := hd
    simp [keysUnique] at hu
    by_cases hk : k2 = k
    · subst hk
      simpa [removeKey] using hu.1
    · simp [removeKey, lookupKey, hk, ih hu.2]

theorem setKey_self {xs : List (String × Json)} {k : String} {v : Json}
    (h : lookupKey xs k = some v) : setKey xs k v = xs := by
  induction xs with
  | nil => simp [lookupKey] at h
  | cons hd tl ih =>
    obtain ⟨k', v'⟩ := hd
    by_cases hk : k' = k
    · subst hk
      simp [lookupKey] at h
      simp [setKey, h]
    · simp [lookupKey, hk] at h
      simp [setKey, hk, ih h]

theorem setKey_setKey (xs : List (String × Json)) (k : String) (v w : Json) :
    setKey (setKey xs k v) k w = setKey xs k w := by
  induction xs with
  | nil => simp [setKey]
  | cons hd tl ih =>
    obtain ⟨k', v'⟩ := hd
    by_cases hk : k' = k <;> simp [setKey, hk, ih]

theorem keysUnique_setKey (xs : List (String × Json)) (k : String) (v : Json)
    (hu : keysUnique xs = true) : keysUnique (setKey xs k v) = true := by
  induction xs with
  | nil => simp [setKey, keysUnique, lookupKey]
  | cons hd tl ih =>
    obtain ⟨k2, v2⟩ := hd
    simp [keysUnique] at hu
    by_cases hk : k2 = k
    · subst hk
      simp [setKey, keysUnique, hu.1, hu.2]
    · simp [setKey, hk, keysUnique, ih hu.2, lookupKey_setKey_ne _ _ hk, hu.1]

theorem keysUnique_removeKey (xs : List (String × Json)) (k : String)
    (hu : keysUnique xs = true) : keysUnique (removeKey xs k) = true := by
  induction xs with
  | nil => simp [removeKey, keysUnique]
  | cons hd tl ih =>
    obtain ⟨k2, v2⟩ := hd
    simp [keysUnique] at hu
    by_cases hk : k2 = k
    · simpa [removeKey, hk] using hu.2
    · simp [removeKey, hk, keysUnique, lookupKey_removeKey_ne _ hk, hu.1, ih hu.2]

theorem lookupKey_isSome_setKey (xs : List (String × Json)) (k k' : String) (v : Json)
    (h : (lookupKey (setKey xs k v) k').isSome) :
    k' = k ∨ (lookupKey xs k').isSome := by
  by_cases hk : k' = k
  · exact Or.inl hk
  · right
    rwa [lookupKey_setKey_ne _ _ hk] at h

theorem lookupKey_isSome_removeKey (xs : List (String × Json)) (k k' : String)
    (h : (lookupKey (removeKey xs k) k').isSome) : (lookupKey xs k').isSome := by
  by_cases hk : k' = k
  · subst hk
    induction xs with
    | nil => simp [removeKey, lookupKey] at h
    | cons hd tl ih =>
      obtain ⟨k2, v2⟩ := hd
      by_cases hk2 : k2 = k' <;> simp_all [removeKey, lookupKey, hk2]
  · rw [lookupKey_removeKey_ne _ hk] at h
    by_cases hk2 : (lookupKey xs k').isSome
    · exact hk2
    · exact h

/-! ### Decimal tokens for array indices in JSON-pointer paths -/

def digitChar (d : Nat) : Char := Char.ofNat (48 + d)

def digitVal (c : Char) : Nat := c.toNat - 48

def isDigitChar (c : Char) : Bool := 48 ≤ c.toNat && c.toNat ≤ 57

/-- Decimal digits of `n`, most significant first; `fuel` bounds recursion depth. -/
def natTokAux : Nat → Nat → List Char
  | 0, _ => []
  | fuel + 1, n =>
      if n < 10 then [digitChar n]
      else natTokAux fuel (n / 10) ++ [digitChar (n % 10)]

/-- Decimal string of a natural number (array-index token). -/
def natTok (n : Nat) : String := ⟨natTokAux (n + 1) n⟩

def parseDigits : List Char → Nat → Option Nat
  | [], acc => some acc
  | c :: cs, acc => if isDigitChar c then parseDigits cs (acc * 10 + digitVal c) else none

/-- Parse a path token as an array index: a non-empty string of decimal digits. -/
def parseNatTok (s : String) : Option Nat :=
  if s.data.isEmpty then none else parseDigits s.data 0

theorem digitChar_val {d : Nat} (h : d < 10) :
    digitVal (digitChar d) = d ∧ isDigitChar (digitChar d) = true := by
  interval_cases d <;> exact ⟨by decide, by decide⟩

theorem parseDigits_natTokAux :
    ∀ fuel n rest acc, n < 10 ^ fuel →
      parseDigits (natTokAux fuel n ++ rest) acc =
        parseDigits rest (acc * 10 ^ (natTokAux fuel n).length + n) := by
  intro fuel
  induction fuel with
  | zero => intro n rest acc h; simp at h; simp [h, natTokAux]
  | succ fuel ih =>
    intro n rest acc h
    by_cases h10 : n < 10
    · have hd := digitChar_val h10
      simp [natTokAux, h10, parseDigits, hd.1, hd.2]
    · have hdiv : n / 10 < 10 ^ fuel := by
        rw [Nat.div_lt_iff_lt_mul (by norm_num)]
        calc n < 10 ^ (fuel + 1) := h
        _ = 10 ^ fuel * 10 := by ring
      have hmod := digitChar_val (Nat.mod_lt n (by norm_num : 0 < 10))
      simp only [natTokAux, if_neg h10, List.append_assoc, List.cons_append,
        List.nil_append]
      rw [ih (n / 10) _ acc hdiv]
      simp [parseDigits, hmod.1, hmod.2, List.length_append]
      congr 1
      have hdm : n / 10 * 10 + n % 10 = n := Nat.div_add_mod' n 10
      calc (acc * 10 ^ (natTokAux fuel (n / 10)).length + n / 10) * 10 + n % 10
          = acc * 10 ^ (natTokAux fuel (n / 10)).length * 10
            + (n / 10 * 10 + n % 10) := by ring
        _ = acc * (10 ^ (natTokAux fuel (n / 10)).length * 10) + n := by
              rw [hdm]; ring
        _ = acc * 10 ^ ((natTokAux fuel (n / 10)).length + 1) + n := by
              rw [pow_succ]

theorem parseNatTok_natTok (n : Nat) : parseNatTok (natTok n) = some n := by
  have hne : natTokAux (n + 1) n ≠ [] := by
    by_cases h10 : n < 10 <;> simp [natTokAux, h10]
  have hpow : n < 10 ^ (n + 1) := by
    calc n < 10 ^ n := Nat.lt_pow_self (by norm_num) n
    _ ≤ 10 ^ (n + 1) := Nat.pow_le_pow_right (by norm_num) (Nat.le_succ n)
  have h := parseDigits_natTokAux (n + 1) n [] 0 hpow
  simp [parseDigits] at h
  simpa [parseNatTok, natTok, List.isEmpty_iff, hne] using h

theorem natTok_injective {m n : Nat} (h : natTok m = natTok n) : m = n := by
  have hm := parseNatTok_natTok m
  have hn := parseNatTok_natTok n
  rw [h, hn] at hm
  exact (Option.some.injEq .. ▸ hm).symm

/-! ### Patch operations (the `PatchSet` data model)

Modelled from the spec: `fast-json-patch` is a dependency whose source is
not part of this repository.  A `PatchSet` is "an ordered sequence of
structural edit operations (add/remove/replace/move/copy/test, keyed by
path into the document tree)".  Paths are kept as token lists; the
JSON-pointer string escaping (`~0`/`~1`, RFC 6901) is a bijection between
pointer strings and token lists and is abstracted away. -/

abbrev JsonPath := List String

inductive Op where
  | add (path : JsonPath) (value : Json)
  | remove (path : JsonPath)
  | replace (path : JsonPath) (value : Json)
  | move (fromPath path : JsonPath)
  | copy (fromPath path : JsonPath)
  | test (path : JsonPath) (value : Json)
  deriving Repr, DecidableEq

/-- Push one path token in front of an operation's paths (used when a
recursively computed diff of a subdocument is lifted to the parent). -/
def prefixOp (t : String) : Op → Op
  | .add p v => .add (t :: p) v
  | .remove p => .remove (t :: p)
  | .replace p v => .replace (t :: p) v
  | .move f p => .move (t :: f) (t :: p)
  | .copy f p => .copy (t :: f) (t :: p)
  | .test p v => .test (t :: p) v

/-! ### Well-formedness and structural equality of documents -/

/-- Every key of `ys` is present in `xs`. -/
def keysIncl (ys xs : List (String × Json)) : Bool :=
  ys.all fun kv => (lookupKey xs kv.1).isSome

mutual

/-- Well-formed document: every object node has pairwise-distinct keys,
as holds for any value produced by `JSON.parse`. -/
def Json.wf : Json → Bool
  | .obj kvs => keysUnique kvs && Json.wfMembers kvs
  | .arr xs => Json.wfList xs
  | _ => true

def Json.wfMembers : List (String × Json) → Bool
  | [] => true
  | (_, v) :: rest => Json.wf v && Json.wfMembers rest

def Json.wfList : List Json → Bool
  | [] => true
  | x :: rest => Json.wf x && Json.wfList rest

end

mutual

/-- Structural ("deep") equality: object members are compared by key,
ignoring member order, mirroring deep equality of JavaScript objects. -/
def structEq : Json → Json → Bool
  | .obj xs, .obj ys => structEqMembers xs ys && keysIncl ys xs
  | .arr xs, .arr ys => structEqList xs ys
  | a, b => Json.beq a b

def structEqMembers : List (String × Json) → List (String × Json) → Bool
  | [], _ => true
  | (k, v) :: rest, ys =>
      (match lookupKey ys k with
       | some w => structEq v w
       | none => false) && structEqMembers rest ys

def structEqList : List Json → List Json → Bool
  | [], [] => true
  | x :: xs, y :: ys => structEq x y && structEqList xs ys
  | _, _ => false

end

theorem keysIncl_refl (xs : List (String × Json)) : keysIncl xs xs = true := by
  rw [keysIncl, List.all_eq_true]
  intro kv hm
  obtain ⟨k, v⟩ := kv
  exact mem_lookupKey_isSome hm

mutual

theorem structEq_refl : ∀ j : Json, Json.wf j = true → structEq j j = true
  | .obj xs, h => by
      simp [Json.wf] at h
      simp [structEq, keysIncl_refl]
      exact structEqMembers_refl xs xs h.1 h.2
        (fun k v hm => mem_lookupKey_unique h.1 hm)
  | .arr xs, h => by
      simp [Json.wf] at h
      simpa [structEq] using structEqList_refl xs h
  | .null, h => by simp [structEq, Json.beq]
  | .bool b, h => by simp [structEq, Json.beq]
  | .num n, h => by simp [structEq, Json.beq]
  | .str s, h => by simp [structEq, Json.beq]
  | .buf bs, h => by simp [structEq, Json.beq]

theorem structEqMembers_refl :
    ∀ xs full : List (String × Json), keysUnique full = true →
      Json.wfMembers xs = true →
      (∀ k v, (k, v) ∈ xs → lookupKey full k = some v) →
      structEqMembers xs full = true
  | [], _, _, _, _ => by simp [structEqMembers]
  | (k, v) :: rest, full, hu, hwf, hl => by
      simp [Json.wfMembers] at hwf
      have hlk : lookupKey full k = some v := hl k v (by simp)
      simp [structEqMembers, hlk]
      refine ⟨structEq_refl v hwf.1, ?_⟩
      exact structEqMembers_refl rest full hu hwf.2
        (fun k' v' hm => hl k' v' (List.mem_cons_of_mem _ hm))

theorem structEqList_refl :
    ∀ xs : List Json, Json.wfList xs = true → structEqList xs xs = true
  | [], _ => by simp [structEqList]
  | x :: rest, h => by
      simp [Json.wfList] at h
      simp [structEqList, structEq_refl x h.1, structEqList_refl rest h.2]

end

/-! ### Patch application

Modelled from the spec: `applyPatch(doc, patchSet) -> newDoc | ApplyError`
"fails … when an operation cannot be satisfied; on any single-operation
failure, the entire apply is aborted" (§4.1); a root-path (`""`) add or
replace yields the operation's value as the new document, and a
root-path remove yields `null`, without touching the old document
object in place. -/

/-- Insert a value at position `i ≤ xs.length`. -/
def arrInsertAt (xs : List Json) (i : Nat) (v : Json) : List Json :=
  xs.take i ++ v :: xs.drop i

/-- Remove the element at position `i < xs.length`. -/
def arrRemoveAt (xs : List Json) (i : Nat) : List Json :=
  xs.take i ++ xs.drop (i + 1)

def getAtPath : Json → JsonPath → Option Json
  | doc, [] => some doc
  | .obj kvs, t :: rest => (lookupKey kvs t).bind fun c => getAtPath c rest
  | .arr xs, t :: rest =>
      (parseNatTok t).bind fun i => (xs[i]?).bind fun c => getAtPath c rest
  | _, _ :: _ => none

def addAtPath : Json → JsonPath → Json → Option Json
  | _, [], v => some v
  | .obj kvs, [t], v => some (.obj (setKey kvs t v))
  | .arr xs, [t], v =>
      if t = "-" then some (.arr (xs ++ [v]))
      else (parseNatTok t).bind fun i =>
        if i ≤ xs.length then some (.arr (arrInsertAt xs i v)) else none
  | .obj kvs, t :: rest, v =>
      (lookupKey kvs t).bind fun c =>
        (addAtPath c rest v).map fun c' => .obj (setKey kvs t c')
  | .arr xs, t :: rest, v =>
      (parseNatTok t).bind fun i => (xs[i]?).bind fun c =>
        (addAtPath c rest v).map fun c' => .arr (xs.set i c')
  | _, _ :: _, _ => none

def replaceAtPath : Json → JsonPath → Json → Option Json
  | _, [], v => some v
  | .obj kvs, [t], v =>
      (lookupKey kvs t).bind fun _ => some (.obj (setKey kvs t v))
  | .arr xs, [t], v =>
      (parseNatTok t).bind fun i =>
        if i < xs.length then some (.arr (xs.set i v)) else none
  | .obj kvs, t :: rest, v =>
      (lookupKey kvs t).bind fun c =>
        (replaceAtPath c rest v).map fun c' => .obj (setKey kvs t c')
  | .arr xs, t :: rest, v =>
      (parseNatTok t).bind fun i => (xs[i]?).bind fun c =>
        (replaceAtPath c rest v).map fun c' => .arr (xs.set i c')
  | _, _ :: _, _ => none

def removeAtPath : Json → JsonPath → Option Json
  | _, [] => some .null
  | .obj kvs, [t] =>
      (lookupKey kvs t).bind fun _ => some (.obj (removeKey kvs t))
  | .arr xs, [t] =>
      (parseNatTok t).bind fun i =>
        if i < xs.length then some (.arr (arrRemoveAt xs i)) else none
  | .obj kvs, t :: rest =>
      (lookupKey kvs t).bind fun c =>
        (removeAtPath c rest).map fun c' => .obj (setKey kvs t c')
  | .arr xs, t :: rest =>
      (parseNatTok t).bind fun i => (xs[i]?).bind fun c =>
        (removeAtPath c rest).map fun c' => .arr (xs.set i c')
  | _, _ :: _ => none

/-- Apply a single operation; `none` is an `ApplyError`. -/
def applyOp (doc : Json) : Op → Option Json
  | .add p v => addAtPath doc p v
  | .remove p => removeAtPath doc p
  | .replace p v => replaceAtPath doc p v
  | .test p v =>
      (getAtPath doc p).bind fun x => if structEq x v then some doc else none
  | .move f p =>
      (getAtPath doc f).bind fun x =>
        (removeAtPath doc f).bind fun d => addAtPath d p x
  | .copy f p => (getAtPath doc f).bind fun x => addAtPath doc p x

/-- All-or-nothing application of a whole patch set (the codec operation
`applyPatch` of §4.1): the first failing operation aborts the apply. -/
def applyPatch : Json → List Op → Option Json
  | doc, [] => some doc
  | doc, op :: rest => (applyOp doc op).bind fun d => applyPatch d rest

/-- In-place application as performed by the session on its duplicated
document: `dup` is the value currently reachable through the session's
local variable, `cur` the working document of the apply loop, `al`
whether the two are still the same object.  A root-path operation
rebinds the working document without mutating the old object, so the
local variable stops tracking it from then on.  Returns the final value
of the local variable and whether the whole patch set applied. -/
def applyOpsRun : Json → Json → Bool → List Op → Json × Bool
  | dup, _, _, [] => (dup, true)
  | dup, cur, al, op :: rest =>
      match applyOp cur op with
      | none => (dup, false)
      | some cur' =>
          match op with
          | .add [] _ | .replace [] _ | .remove [] | .move _ [] | .copy _ [] =>
              applyOpsRun dup cur' false rest
          | _ =>
              applyOpsRun (if al then cur' else dup) cur' al rest

/-! ### Structural diff

Modelled from the spec: `diff(oldDoc, newDoc) -> PatchSet` "computes the
minimal structural edit set transforming `oldDoc` into `newDoc`" (§4.1),
recursively over objects (per-key recursion, removals for disappeared
keys, adds for new keys) and arrays (per-index recursion on the common
prefix, removals of trailing elements from the highest index down, adds
of appended elements in ascending order). -/

/-- `remOps n m` removes indices `n+m-1, …, n` (highest first). -/
def remOps (n : Nat) : Nat → List Op
  | 0 => []
  | m + 1 => .remove [natTok (n + m)] :: remOps n m

/-- `addOps k vs` adds `vs` at ascending indices `k, k+1, …`. -/
def addOps (k : Nat) : List Json → List Op
  | [] => []
  | v :: vs => .add [natTok k] v :: addOps (k + 1) vs

mutual

/-- Structural diff of two documents (the codec operation `diff`,
`jsonPatch.compare` in the source).  Paths are relative to the two
documents being compared. -/
def compare : Json → Json → List Op
  | .obj xs, .obj ys =>
      diffMembers xs ys
        ++ ((ys.filter fun kv => (lookupKey xs kv.1).isNone).map
              fun kv => .add [kv.1] kv.2)
  | .arr xs, .arr ys =>
      elemDiff 0 xs ys
        ++ remOps ys.length (xs.length - ys.length)
        ++ addOps xs.length (ys.drop xs.length)
  | a, b => if Json.beq a b then [] else [.replace [] b]

/-- Per-key pass over the old object's members: recurse on keys kept by
the new object, remove keys it dropped. -/
def diffMembers : List (String × Json) → List (String × Json) → List Op
  | [], _ => []
  | (k, v) :: rest, ys =>
      (match lookupKey ys k with
       | some w => (compare v w).map (prefixOp k)
       | none => [.remove [k]])
        ++ diffMembers rest ys

/-- Per-index pass over the common prefix of two arrays. -/
def elemDiff (i : Nat) : List Json → List Json → List Op
  | x :: xs, y :: ys =>
      (compare x y).map (prefixOp (natTok i)) ++ elemDiff (i + 1) xs ys
  | _, _ => []

end

/-! ### The diff/apply round-trip -/

/-- Shape of operations the diff can emit: adds and removes with
non-root paths, and replaces. -/
def goodOp : Op → Bool
  | .add p _ => !p.isEmpty
  | .remove p => !p.isEmpty
  | .replace _ _ => true
  | _ => false

theorem goodOp_prefixOp (t : String) {op : Op} (h : goodOp op = true) :
    goodOp (prefixOp t op) = true := by
  cases op <;> simp_all [goodOp, prefixOp]

theorem remOps_goodOps (n : Nat) : ∀ m, ∀ op ∈ remOps n m, goodOp op = true := by
  intro m
  induction m with
  | zero => simp [remOps]
  | succ m ih =>
    intro op hop
    rcases List.mem_cons.mp hop with h | h
    · simp [h, goodOp]
    · exact ih op h

theorem addOps_goodOps : ∀ (vs : List Json) (k : Nat), ∀ op ∈ addOps k vs, goodOp op = true := by
  intro vs
  induction vs with
  | nil => simp [addOps]
  | cons v vs ih =>
    intro k op hop
    rcases List.mem_cons.mp hop with h | h
    · simp [h, goodOp]
    · exact ih (k + 1) op h

mutual

theorem compare_goodOps : ∀ (a b : Json), ∀ op ∈ compare a b, goodOp op = true
  | .obj xs, .obj ys => by
      intro op hop
      simp only [compare] at hop
      rcases List.mem_append.mp hop with h | h
      · exact diffMembers_goodOps xs ys op h
      · obtain ⟨kv, _, he⟩ := List.mem_map.mp h
        simp [← he, goodOp]
  | .arr xs, .arr ys => by
      intro op hop
      simp only [compare] at hop
      rcases List.mem_append.mp hop with h | h
      · rcases List.mem_append.mp h with h1 | h2
        · exact elemDiff_goodOps 0 xs ys op h1
        · exact remOps_goodOps _ _ op h2
      · exact addOps_goodOps _ _ op h
  | .null, b => by
      intro op hop
      simp only [compare] at hop
      split at hop <;> simp_all [goodOp]
  | .bool b0, b => by
      intro op hop
      simp only [compare] at hop
      split at hop <;> simp_all [goodOp]
  | .num n0, b => by
      intro op hop
      simp only [compare] at hop
      split at hop <;> simp_all [goodOp]
  | .str s0, b => by
      intro op hop
      simp only [compare] at hop
      split at hop <;> simp_all [goodOp]
  | .buf bs, b => by
      intro op hop
      simp only [compare] at hop
      split at hop <;> simp_all [goodOp]
  | .obj xs, .null => by
      intro op hop
      simp only [compare] at hop
      split at hop <;> simp_all [goodOp]
  | .obj xs, .bool b1 => by
      intro op hop
      simp only [compare] at hop
      split at hop <;> simp_all [goodOp]
  | .obj xs, .num n1 => by
      intro op hop
      simp only [compare] at hop
      split at hop <;> simp_all [goodOp]
  | .obj xs, .str s1 => by
      intro op hop
      simp only [compare] at hop
      split at hop <;> simp_all [goodOp]
  | .obj xs, .arr ys => by
      intro op hop
      simp only [compare] at hop
      split at hop <;> simp_all [goodOp]
  | .obj xs, .buf bs => by
      intro op hop
      simp only [compare] at hop
      split at hop <;> simp_all [goodOp]
  | .arr xs, .null => by
      intro op hop
      simp only [compare] at hop
      split at hop <;> simp_all [goodOp]
  | .arr xs, .bool b1 => by
      intro op hop
      simp only [compare] at hop
      split at hop <;> simp_all [goodOp]
  | .arr xs, .num n1 => by
      intro op hop
      simp only [compare] at hop
      split at hop <;> simp_all [goodOp]
  | .arr xs, .str s1 => by
      intro op hop
      simp only [compare] at hop
      split at hop <;> simp_all [goodOp]
  | .arr xs, .obj ys => by
      intro op hop
      simp only [compare] at hop
      split at hop <;> simp_all [goodOp]
  | .arr xs, .buf bs => by
      intro op hop
      simp only [compare] at hop
      split at hop <;> simp_all [goodOp]

theorem diffMembers_goodOps :
    ∀ (xs ys : List (String × Json)), ∀ op ∈ diffMembers xs ys, goodOp op = true
  | [], _ => by simp [diffMembers]
  | (k, v) :: rest, ys => by
      intro op hop
      simp only [diffMembers] at hop
      rcases List.mem_append.mp hop with h | h
      · rcases hw : lookupKey ys k with _ | w
        · rw [hw] at h
          simp at h
          simp [h, goodOp]
        · rw [hw] at h
          obtain ⟨op0, hop0, he⟩ := List.mem_map.mp h
          rw [← he]
          exact goodOp_prefixOp k (compare_goodOps v w op0 hop0)
      · exact diffMembers_goodOps rest ys op h

theorem elemDiff_goodOps :
    ∀ (i : Nat) (xs ys : List Json), ∀ op ∈ elemDiff i xs ys, goodOp op = true
  | i, [], ys => by simp [elemDiff]
  | i, x :: xs, [] => by simp [elemDiff]
  | i, x :: xs, y :: ys => by
      intro op hop
      simp only [elemDiff] at hop
      rcases List.mem_append.mp hop with h | h
      · obtain ⟨op0, hop0, he⟩ := List.mem_map.mp h
        rw [← he]
        exact goodOp_prefixOp _ (compare_goodOps x y op0 hop0)
      · exact elemDiff_goodOps (i + 1) xs ys op h

end

theorem applyPatch_append (d : Json) (l1 l2 : List Op) :
    applyPatch d (l1 ++ l2) = (applyPatch d l1).bind fun d' => applyPatch d' l2 := by
  induction l1 generalizing d with
  | nil => simp [applyPatch]
  | cons op rest ih =>
    cases h : applyOp d op <;> simp [applyPatch, h, ih]

theorem applyOp_prefix_obj {op : Op} {v v' : Json} {kvs : List (String × Json)}
    {k : String} (hg : goodOp op = true) (hl : lookupKey kvs k = some v)
    (ha : applyOp v op = some v') :
    applyOp (Json.obj kvs) (prefixOp k op) = some (Json.obj (setKey kvs k v')) := by
  cases op with
  | add p w =>
    cases p with
    | nil => simp [goodOp] at hg
    | cons t rest =>
      simp only [applyOp, prefixOp] at ha ⊢
      simp [addAtPath, hl, ha]
  | remove p =>
    cases p with
    | nil => simp [goodOp] at hg
    | cons t rest =>
      simp only [applyOp, prefixOp] at ha ⊢
      simp [removeAtPath, hl, ha]
  | replace p w =>
    cases p with
    | nil =>
      simp only [applyOp, prefixOp] at ha ⊢
      simp only [replaceAtPath] at ha
      obtain rfl : w = v' := by simpa using ha
      simp [replaceAtPath, hl]
    | cons t rest =>
      simp only [applyOp, prefixOp] at ha ⊢
      simp [replaceAtPath, hl, ha]
  | move f p => simp [goodOp] at hg
  | copy f p => simp [goodOp] at hg
  | test p w => simp [goodOp] at hg

theorem applyOp_prefix_arr {op : Op} {v v' : Json} {xs : List Json} {i : Nat}
    (hg : goodOp op = true) (hl : xs[i]? = some v)
    (ha : applyOp v op = some v') :
    applyOp (Json.arr xs) (prefixOp (natTok i) op) = some (Json.arr (xs.set i v')) := by
  have hlen : i < xs.length := (List.getElem?_eq_some.mp hl).1
  cases op with
  | add p w =>
    cases p with
    | nil => simp [goodOp] at hg
    | cons t rest =>
      simp only [applyOp, prefixOp] at ha ⊢
      simp [addAtPath, parseNatTok_natTok, hl, ha]
  | remove p =>
    cases p with
    | nil => simp [goodOp] at hg
    | cons t rest =>
      simp only [applyOp, prefixOp] at ha ⊢
      simp [removeAtPath, parseNatTok_natTok, hl, ha]
  | replace p w =>
    cases p with
    | nil =>
      simp only [applyOp, prefixOp] at ha ⊢
      simp only [replaceAtPath] at ha
      obtain rfl : w = v' := by simpa using ha
      simp [replaceAtPath, parseNatTok_natTok, hlen]
    | cons t rest =>
      simp only [applyOp, prefixOp] at ha ⊢
      simp [replaceAtPath, parseNatTok_natTok, hl, ha]
  | move f p => simp [goodOp] at hg
  | copy f p => simp [goodOp] at hg
  | test p w => simp [goodOp] at hg

theorem applyPatch_prefix_obj :
    ∀ (ops : List Op) {v v' : Json} {kvs : List (String × Json)} {k : String},
      (∀ op ∈ ops, goodOp op = true) →
      lookupKey kvs k = some v → applyPatch v ops = some v' →
      applyPatch (Json.obj kvs) (ops.map (prefixOp k))
        = some (Json.obj (setKey kvs k v')) := by
  intro ops
  induction ops with
  | nil =>
    intro v v' kvs k hg hl ha
    simp [applyPatch] at ha
    subst ha
    simp [applyPatch, setKey_self hl]
  | cons op rest ih =>
    intro v v' kvs k hg hl ha
    simp only [applyPatch] at ha
    rcases h1 : applyOp v op with _ | v1
    · rw [h1] at ha; simp at ha
    · rw [h1] at ha
      simp at ha
      have hpf := applyOp_prefix_obj (hg op (by simp)) hl h1
      simp only [List.map_cons, applyPatch, hpf, Option.some_bind]
      have hrest := ih (fun o h => hg o (by simp [h]))
        (lookupKey_setKey_self kvs k v1) ha
      rw [hrest, setKey_setKey]

theorem set_self_of_getElem? {xs : List Json} {i : Nat} {v : Json}
    (hl : xs[i]? = some v) : xs.set i v = xs := by
  have hlen : i < xs.length := (List.getElem?_eq_some.mp hl).1
  apply List.ext_getElem?
  intro j
  by_cases hj : j = i
  · subst hj
    rw [List.getElem?_set_self hlen, hl]
  · rw [List.getElem?_set_ne (fun e => hj e.symm)]

theorem applyPatch_prefix_arr :
    ∀ (ops : List Op) {v v' : Json} {xs : List Json} {i : Nat},
      (∀ op ∈ ops, goodOp op = true) →
      xs[i]? = some v → applyPatch v ops = some v' →
      applyPatch (Json.arr xs) (ops.map (prefixOp (natTok i)))
        = some (Json.arr (xs.set i v')) := by
  intro ops
  induction ops with
  | nil =>
    intro v v' xs i hg hl ha
    simp [applyPatch] at ha
    subst ha
    simp [applyPatch, set_self_of_getElem? hl]
  | cons op rest ih =>
    intro v v' xs i hg hl ha
    simp only [applyPatch] at ha
    rcases h1 : applyOp v op with _ | v1
    · rw [h1] at ha; simp at ha
    · rw [h1] at ha
      simp at ha
      have hlen : i < xs.length := (List.getElem?_eq_some.mp hl).1
      have hpf := applyOp_prefix_arr (hg op (by simp)) hl h1
      simp only [List.map_cons, applyPatch, hpf, Option.some_bind]
      have hl1 : (xs.set i v1)[i]? = some v1 := by
        rw [List.getElem?_set_self]
        simpa using hlen
      have hrest := ih (fun o h => hg o (by simp [h])) hl1 ha
      rw [hrest, List.set_set]

/-- Fold a list of bindings into an object, left to right. -/
def setAll : List (String × Json) → List (String × Json) → List (String × Json)
  | cur, [] => cur
  | cur, (k, w) :: ps => setAll (setKey cur k w) ps

theorem applyPatch_addKeys :
    ∀ (ps cur : List (String × Json)),
      applyPatch (Json.obj cur) (ps.map fun kv => Op.add [kv.1] kv.2)
        = some (Json.obj (setAll cur ps)) := by
  intro ps
  induction ps with
  | nil => intro cur; simp [applyPatch, setAll]
  | cons kv ps ih =>
    intro cur
    obtain ⟨k, w⟩ := kv
    simp only [List.map_cons, applyPatch, applyOp, addAtPath, setAll,
      Option.some_bind]
    exact ih (setKey cur k w)

theorem lookupKey_setAll_not_mem :
    ∀ (ps cur : List (String × Json)) (k : String),
      (∀ kv ∈ ps, kv.1 ≠ k) →
      lookupKey (setAll cur ps) k = lookupKey cur k := by
  intro ps
  induction ps with
  | nil => intro cur k _; rfl
  | cons kv ps ih =>
    intro cur k h
    obtain ⟨k0, w0⟩ := kv
    have hk0 : k0 ≠ k := h (k0, w0) (by simp)
    rw [setAll, ih _ _ (fun kv hkv => h kv (by simp [hkv])),
      lookupKey_setKey_ne _ _ (fun e => hk0 e.symm)]

theorem lookupKey_setAll_mem :
    ∀ (ps cur : List (String × Json)) (k : String) (w : Json),
      keysUnique ps = true → (k, w) ∈ ps →
      lookupKey (setAll cur ps) k = some w := by
  intro ps
  induction ps with
  | nil => intro cur k w _ h; simp at h
  | cons kv ps ih =>
    intro cur k w hu hm
    obtain ⟨k0, w0⟩ := kv
    simp [keysUnique] at hu
    rcases List.mem_cons.mp hm with h1 | h2
    · obtain ⟨hk, hw⟩ := Prod.mk.injEq .. ▸ h1
      subst hk hw
      rw [setAll, lookupKey_setAll_not_mem ps _ k ?_, lookupKey_setKey_self]
      intro kv hkv he
      have := mem_lookupKey_isSome (he ▸ hkv : (k, kv.2) ∈ ps)
      rw [hu.1] at this
      simp at this
    · rw [setAll]
      exact ih (setKey cur k0 w0) k w hu.2 h2

theorem keysUnique_setAll :
    ∀ (ps cur : List (String × Json)), keysUnique cur = true →
      keysUnique (setAll cur ps) = true := by
  intro ps
  induction ps with
  | nil => intro cur h; exact h
  | cons kv ps ih =>
    intro cur h
    obtain ⟨k0, w0⟩ := kv
    exact ih _ (keysUnique_setKey _ _ _ h)

theorem lookupKey_none_filter {tl : List (String × Json)} {k : String}
    (p : String × Json → Bool) (h : lookupKey tl k = none) :
    lookupKey (tl.filter p) k = none := by
  induction tl with
  | nil => simp [lookupKey]
  | cons hd rest ih =>
    obtain ⟨k2, v2⟩ := hd
    by_cases hk : k2 = k
    · subst hk
      simp [lookupKey] at h
    · simp only [lookupKey, if_neg hk] at h
      by_cases hp : p (k2, v2) <;> simp [List.filter, hp, lookupKey, hk, ih h]

theorem keysUnique_filter (p : String × Json → Bool) :
    ∀ ys : List (String × Json), keysUnique ys = true →
      keysUnique (ys.filter p) = true := by
  intro ys
  induction ys with
  | nil => simp
  | cons hd rest ih =>
    intro hu
    obtain ⟨k2, v2⟩ := hd
    simp [keysUnique] at hu
    by_cases hp : p (k2, v2)
    · simp [List.filter, hp, keysUnique, ih hu.2,
        lookupKey_none_filter p hu.1]
    · simp [List.filter, hp, ih hu.2]

theorem structEqMembers_intro :
    ∀ ms ys : List (String × Json),
      (∀ k v, (k, v) ∈ ms → ∃ w, lookupKey ys k = some w ∧ structEq v w = true) →
      structEqMembers ms ys = true := by
  intro ms
  induction ms with
  | nil => intro ys _; simp [structEqMembers]
  | cons hd rest ih =>
    intro ys h
    obtain ⟨k, v⟩ := hd
    obtain ⟨w, hw, hs⟩ := h k v (by simp)
    simp [structEqMembers, hw, hs,
      ih ys (fun k' v' hm => h k' v' (List.mem_cons_of_mem _ hm))]

theorem structEqList_intro :
    ∀ as bs : List Json, as.length = bs.length →
      (∀ (j : Nat) (a b : Json),
        as[j]? = some a → bs[j]? = some b → structEq a b = true) →
      structEqList as bs = true := by
  intro as
  induction as with
  | nil =>
    intro bs hlen _
    cases bs with
    | nil => simp [structEqList]
    | cons b bs => simp at hlen
  | cons a as ih =>
    intro bs hlen h
    cases bs with
    | nil => simp at hlen
    | cons b bs =>
      simp only [List.length_cons, Nat.add_right_cancel_iff] at hlen
      simp only [structEqList, Bool.and_eq_true]
      constructor
      · exact h 0 a b (by simp) (by simp)
      · apply ih bs hlen
        intro j x y hx hy
        have hx' : (a :: as)[j + 1]? = some x := by simpa using hx
        have hy' : (b :: bs)[j + 1]? = some y := by simpa using hy
        exact h (j + 1) x y hx' hy'

theorem wfMembers_mem :
    ∀ {xs : List (String × Json)}, Json.wfMembers xs = true →
      ∀ {k : String} {v : Json}, (k, v) ∈ xs → Json.wf v = true := by
  intro xs
  induction xs with
  | nil => intro _ k v h; simp at h
  | cons hd rest ih =>
    intro hwf k v hm
    obtain ⟨k2, v2⟩ := hd
    simp [Json.wfMembers] at hwf
    rcases List.mem_cons.mp hm with h1 | h2
    · obtain ⟨hk, hv⟩ := Prod.mk.injEq .. ▸ h1
      exact hv ▸ hwf.1
    · exact ih hwf.2 h2

theorem wfList_mem :
    ∀ {xs : List Json}, Json.wfList xs = true →
      ∀ {x : Json}, x ∈ xs → Json.wf x = true := by
  intro xs
  induction xs with
  | nil => intro _ x h; simp at h
  | cons hd rest ih =>
    intro hwf x hm
    simp [Json.wfList] at hwf
    rcases List.mem_cons.mp hm with h1 | h2
    · exact h1 ▸ hwf.1
    · exact ih hwf.2 h2

theorem sizeOf_mem_members {xs : List (String × Json)} {k : String} {v : Json}
    (h : (k, v) ∈ xs) : sizeOf v < sizeOf (Json.obj xs) := by
  have h1 := List.sizeOf_lt_of_mem h
  have h2 : sizeOf (k, v) = 1 + sizeOf k + sizeOf v := rfl
  simp only [Json.obj.sizeOf_spec]
  omega

theorem sizeOf_mem_list {xs : List Json} {x : Json} (h : x ∈ xs) :
    sizeOf x < sizeOf (Json.arr xs) := by
  have h1 := List.sizeOf_lt_of_mem h
  simp only [Json.arr.sizeOf_spec]
  omega

theorem natTok_ne_dash (n : Nat) : natTok n ≠ "-" := by
  intro h
  have h1 := parseNatTok_natTok n
  have h2 : parseNatTok "-" = none := by decide
  rw [h, h2] at h1
  exact Option.noConfusion h1

theorem applyPatch_remOps :
    ∀ (m n : Nat) (cur : List Json), cur.length = n + m →
      applyPatch (Json.arr cur) (remOps n m) = some (Json.arr (cur.take n)) := by
  intro m
  induction m with
  | zero =>
    intro n cur h
    simp only [Nat.add_zero] at h
    simp [remOps, applyPatch, ← h, List.take_length]
  | succ m ih =>
    intro n cur h
    have hlt : n + m < cur.length := by omega
    simp only [remOps, applyPatch, applyOp, removeAtPath, parseNatTok_natTok,
      Option.some_bind, if_pos hlt]
    have harr : arrRemoveAt cur (n + m) = cur.take (n + m) := by
      rw [arrRemoveAt, show n + m + 1 = cur.length by omega, List.drop_length,
        List.append_nil]
    rw [harr, ih n (cur.take (n + m)) (by rw [List.length_take_of_le (by omega)]),
      List.take_take, Nat.min_eq_left (by omega)]

theorem applyPatch_addOps :
    ∀ (vs cur : List Json),
      applyPatch (Json.arr cur) (addOps cur.length vs)
        = some (Json.arr (cur ++ vs)) := by
  intro vs
  induction vs with
  | nil => intro cur; simp [addOps, applyPatch]
  | cons v vs ih =>
    intro cur
    simp only [addOps, applyPatch, applyOp, addAtPath, if_neg (natTok_ne_dash _),
      parseNatTok_natTok, Option.some_bind, if_pos (Nat.le_refl _)]
    have hins : arrInsertAt cur cur.length v = cur ++ [v] := by
      rw [arrInsertAt, List.take_length, List.drop_length]
    rw [hins]
    have hstep := ih (cur ++ [v])
    have hlen : (cur ++ [v]).length = cur.length + 1 := by
      simp
    rw [hlen] at hstep
    rw [hstep, List.append_assoc, List.singleton_append]

theorem elemDiff_apply :
    ∀ (xs ys cur : List Json) (i : Nat),
      (∀ j : Nat, j < min xs.length ys.length → cur[i + j]? = xs[j]?) →
      (∀ x y : Json, (x, y) ∈ xs.zip ys →
        ∃ c, applyPatch x (compare x y) = some c ∧ structEq c y = true) →
      ∃ cur', applyPatch (Json.arr cur) (elemDiff i xs ys) = some (Json.arr cur') ∧
        cur'.length = cur.length ∧
        (∀ (j : Nat) (y : Json), j < xs.length → ys[j]? = some y →
          ∃ c, cur'[i + j]? = some c ∧ structEq c y = true) ∧
        (∀ m : Nat, m < i ∨ i + min xs.length ys.length ≤ m →
          cur'[m]? = cur[m]?) := by
  intro xs
  induction xs with
  | nil =>
    intro ys cur i _ _
    refine ⟨cur, by simp [elemDiff, applyPatch], rfl, ?_, fun m _ => rfl⟩
    intro j y hj _
    simp at hj
  | cons x xs ih =>
    intro ys cur i hpre F
    cases ys with
    | nil =>
      refine ⟨cur, by simp [elemDiff, applyPatch], rfl, ?_, fun m _ => rfl⟩
      intro j y _ hy
      simp at hy
    | cons y ys =>
      have hmin0 : 0 < min (x :: xs).length (y :: ys).length := by
        simp [Nat.lt_min]
      have hx0 : cur[i]? = some x := by
        have := hpre 0 hmin0
        simpa using this
      obtain ⟨c0, hc0, hs0⟩ := F x y (by simp)
      have happ1 := applyPatch_prefix_arr (compare x y)
        (compare_goodOps x y) hx0 hc0
      have hilen : i < cur.length := (List.getElem?_eq_some.mp hx0).1
      have hpre' : ∀ j : Nat, j < min xs.length ys.length →
          (cur.set i c0)[(i + 1) + j]? = xs[j]? := by
        intro j hj
        rw [List.getElem?_set_ne (by omega)]
        have := hpre (j + 1) (by
          rcases Nat.lt_min.mp hj with ⟨h1, h2⟩
          exact Nat.lt_min.mpr ⟨by simpa using Nat.succ_lt_succ h1,
            by simpa using Nat.succ_lt_succ h2⟩)
        rw [show i + (j + 1) = i + 1 + j by omega] at this
        simpa using this
      have F' : ∀ x' y' : Json, (x', y') ∈ xs.zip ys →
          ∃ c, applyPatch x' (compare x' y') = some c ∧ structEq c y' = true := by
        intro x' y' hm
        exact F x' y' (by simp [hm])
      obtain ⟨cur2, happ2, hlen2, hpt2, hun2⟩ := ih ys (cur.set i c0) (i + 1) hpre' F'
      refine ⟨cur2, ?_, ?_, ?_, ?_⟩
      · rw [elemDiff, applyPatch_append, happ1, Option.some_bind, happ2]
      · rw [hlen2, List.length_set]
      · intro j y0 hj hy0
        cases j with
        | zero =>
          have hy : y = y0 := by simpa using hy0
          subst hy
          refine ⟨c0, ?_, hs0⟩
          rw [Nat.add_zero, hun2 i (Or.inl (by omega)),
            List.getElem?_set_self hilen]
        | succ j =>
          have hy : ys[j]? = some y0 := by simpa using hy0
          have hxj : j < xs.length := by simpa using hj
          obtain ⟨c, hc, hsc⟩ := hpt2 j y0 hxj hy
          refine ⟨c, ?_, hsc⟩
          rw [show i + (j + 1) = i + 1 + j by omega]
          exact hc
      · intro m hm
        have hm' : m < i + 1 ∨ (i + 1) + min xs.length ys.length ≤ m := by
          rcases hm with h | h
          · exact Or.inl (by omega)
          · right
            have : min (x :: xs).length (y :: ys).length
                = min xs.length ys.length + 1 := by
              simp [Nat.succ_min_succ]
            omega
        rw [hun2 m hm', List.getElem?_set_ne (by
          rcases hm with h | h
          · omega
          · have : min (x :: xs).length (y :: ys).length
                = min xs.length ys.length + 1 := by
              simp [Nat.succ_min_succ]
            omega)]

theorem diffMembers_apply :
    ∀ (xs cur ys : List (String × Json)),
      keysUnique xs = true →
      keysUnique cur = true →
      (∀ (k : String) (v : Json), (k, v) ∈ xs → lookupKey cur k = some v) →
      (∀ (k : String) (v w : Json), (k, v) ∈ xs → lookupKey ys k = some w →
        ∃ c, applyPatch v (compare v w) = some c ∧ structEq c w = true) →
      ∃ zs, applyPatch (Json.obj cur) (diffMembers xs ys) = some (Json.obj zs) ∧
        keysUnique zs = true ∧
        (∀ k : String, lookupKey xs k = none → lookupKey zs k = lookupKey cur k) ∧
        (∀ (k : String) (v : Json), (k, v) ∈ xs →
          ((∃ w, lookupKey ys k = some w ∧
            ∃ c, lookupKey zs k = some c ∧ structEq c w = true) ∨
           (lookupKey ys k = none ∧ lookupKey zs k = none))) ∧
        (∀ k : String, (lookupKey zs k).isSome = true →
          (lookupKey cur k).isSome = true) := by
  intro xs
  induction xs with
  | nil =>
    intro cur ys _ hcu _ _
    exact ⟨cur, by simp [diffMembers, applyPatch], hcu,
      fun k _ => rfl, by simp, fun k h => h⟩
  | cons hd rest ih =>
    intro cur ys hu hcu hmem F
    obtain ⟨k0, v0⟩ := hd
    simp only [keysUnique, Bool.and_eq_true, Option.isNone_iff_eq_none] at hu
    obtain ⟨hu1, hu2⟩ := hu
    have hl0 : lookupKey cur k0 = some v0 := hmem k0 v0 (by simp)
    have hknotrest : ∀ (k : String) (v : Json), (k, v) ∈ rest → k ≠ k0 := by
      intro k v hm he
      subst he
      have := mem_lookupKey_isSome hm
      rw [hu1] at this
      simp at this
    rcases hw : lookupKey ys k0 with _ | w0
    · -- the new object dropped key k0: a remove is emitted
      have hstep : applyPatch (Json.obj cur) [Op.remove [k0]]
          = some (Json.obj (removeKey cur k0)) := by
        simp [applyPatch, applyOp, removeAtPath, hl0]
      have hmem' : ∀ (k : String) (v : Json), (k, v) ∈ rest →
          lookupKey (removeKey cur k0) k = some v := by
        intro k v hm
        rw [lookupKey_removeKey_ne cur (hknotrest k v hm)]
        exact hmem k v (List.mem_cons_of_mem _ hm)
      obtain ⟨zs, hap, hz1, hz2, hz3, hz4⟩ := ih (removeKey cur k0) ys hu2
        (keysUnique_removeKey cur k0 hcu) hmem'
        (fun k v w hm hl => F k v w (List.mem_cons_of_mem _ hm) hl)
      refine ⟨zs, ?_, hz1, ?_, ?_, ?_⟩
      · rw [diffMembers, hw, applyPatch_append, hstep, Option.some_bind, hap]
      · intro k hk
        simp only [lookupKey] at hk
        by_cases hkk : k0 = k
        · simp [hkk] at hk
        · rw [if_neg hkk] at hk
          rw [hz2 k hk, lookupKey_removeKey_ne cur (fun e => hkk e.symm)]
      · intro k v hm
        rcases List.mem_cons.mp hm with h1 | h2
        · obtain ⟨hk, hv⟩ := Prod.mk.injEq .. ▸ h1
          subst hk
          right
          refine ⟨hw, ?_⟩
          rw [hz2 k hu1]
          exact lookupKey_removeKey_self hcu
        · exact hz3 k v h2
      · intro k h
        exact lookupKey_isSome_removeKey cur k0 k (hz4 k h)
    · -- key k0 kept: recurse on the subdocuments
      obtain ⟨c0, hc0, hs0⟩ := F k0 v0 w0 (by simp) hw
      have hstep := applyPatch_prefix_obj (compare v0 w0)
        (compare_goodOps v0 w0) hl0 hc0
      have hmem' : ∀ (k : String) (v : Json), (k, v) ∈ rest →
          lookupKey (setKey cur k0 c0) k = some v := by
        intro k v hm
        rw [lookupKey_setKey_ne cur c0 (hknotrest k v hm)]
        exact hmem k v (List.mem_cons_of_mem _ hm)
      obtain ⟨zs, hap, hz1, hz2, hz3, hz4⟩ := ih (setKey cur k0 c0) ys hu2
        (keysUnique_setKey cur k0 c0 hcu) hmem'
        (fun k v w hm hl => F k v w (List.mem_cons_of_mem _ hm) hl)
      refine ⟨zs, ?_, hz1, ?_, ?_, ?_⟩
      · rw [diffMembers, hw, applyPatch_append, hstep, Option.some_bind, hap]
      · intro k hk
        simp only [lookupKey] at hk
        by_cases hkk : k0 = k
        · simp [hkk] at hk
        · rw [if_neg hkk] at hk
          rw [hz2 k hk, lookupKey_setKey_ne cur c0 (fun e => hkk e.symm)]
      · intro k v hm
        rcases List.mem_cons.mp hm with h1 | h2
        · obtain ⟨hk, hv⟩ := Prod.mk.injEq .. ▸ h1
          subst hk
          left
          refine ⟨w0, hw, c0, ?_, hs0⟩
          rw [hz2 k hu1]
          exact lookupKey_setKey_self cur k c0
        · exact hz3 k v h2
      · intro k h
        rcases lookupKey_isSome_setKey cur k0 k c0 (hz4 k h) with h1 | h1
        · rw [h1, hl0]
          rfl
        · exact h1

theorem sizeOf_json_pos (a : Json) : 0 < sizeOf a := by
  cases a <;> simp_arith

theorem roundtrip_fallback {a b : Json}
    (h : compare a b = if Json.beq a b then [] else [.replace [] b])
    (hwa : Json.wf a = true) (hwb : Json.wf b = true) :
    ∃ c, applyPatch a (compare a b) = some c ∧ structEq c b = true := by
  rw [h]
  by_cases he : Json.beq a b = true
  · obtain rfl : a = b := (Json.beq_iff a b).mp he
    exact ⟨a, by simp [applyPatch, he], structEq_refl a hwa⟩
  · simp only [Bool.not_eq_true] at he
    refine ⟨b, ?_, structEq_refl b hwb⟩
    simp [he, applyPatch, applyOp, replaceAtPath]

theorem compareRoundFuel :
    ∀ (N : Nat) (a b : Json), sizeOf a ≤ N →
      Json.wf a = true → Json.wf b = true →
      ∃ c, applyPatch a (compare a b) = some c ∧ structEq c b = true := by
  intro N
  induction N with
  | zero =>
    intro a b h _ _
    exact absurd h (by have := sizeOf_json_pos a; omega)
  | succ N ih =>
    intro a b hN hwa hwb
    cases a <;> cases b <;>
      try (refine roundtrip_fallback ?_ hwa hwb; simp [compare]; done)
    -- the two structural cases remain: arrays, then objects
    next xs ys =>
      have hwfl : Json.wfList xs = true := by simpa [Json.wf] using hwa
      have hwfl2 : Json.wfList ys = true := by simpa [Json.wf] using hwb
      have F : ∀ x y : Json, (x, y) ∈ xs.zip ys →
          ∃ c, applyPatch x (compare x y) = some c ∧ structEq c y = true := by
        intro x y hm
        obtain ⟨hx, hy⟩ := List.of_mem_zip hm
        have hsz : sizeOf x ≤ N := by
          have := sizeOf_mem_list hx
          omega
        exact ih x y hsz (wfList_mem hwfl hx) (wfList_mem hwfl2 hy)
      obtain ⟨cur1, h1, hlen1, hpt1, hun1⟩ := elemDiff_apply xs ys xs 0
        (fun j _ => by simp) F
      by_cases hle : ys.length ≤ xs.length
      · have hdrop : ys.drop xs.length = [] := List.drop_eq_nil_of_le hle
        have h2 := applyPatch_remOps (xs.length - ys.length) ys.length cur1
          (by omega)
        refine ⟨.arr (cur1.take ys.length), ?_, ?_⟩
        · simp only [compare]
          rw [applyPatch_append, applyPatch_append, h1, Option.some_bind, h2,
            Option.some_bind, hdrop]
          simp [addOps, applyPatch]
        · simp only [structEq]
          apply structEqList_intro
          · rw [List.length_take_of_le (by omega)]
          · intro j cj yj hc hy
            have hjlen : j < ys.length := (List.getElem?_eq_some.mp hy).1
            rw [List.getElem?_take, if_pos hjlen] at hc
            obtain ⟨c, hcc, hsc⟩ := hpt1 j yj (by omega) hy
            rw [Nat.zero_add] at hcc
            rw [hcc] at hc
            obtain rfl : c = cj := by simpa using hc
            exact hsc
      · have hlt : xs.length < ys.length := by omega
        have hrem : remOps ys.length (xs.length - ys.length) = [] := by
          rw [Nat.sub_eq_zero_of_le (by omega)]
          rfl
        have h3 := applyPatch_addOps (ys.drop xs.length) cur1
        rw [hlen1] at h3
        refine ⟨.arr (cur1 ++ ys.drop xs.length), ?_, ?_⟩
        · simp only [compare]
          rw [applyPatch_append, applyPatch_append, h1, Option.some_bind, hrem]
          simpa [applyPatch] using h3
        · simp only [structEq]
          apply structEqList_intro
          · rw [List.length_append, hlen1, List.length_drop]
            omega
          · intro j cj yj hc hy
            have hjlen : j < ys.length := (List.getElem?_eq_some.mp hy).1
            by_cases hj : j < xs.length
            · rw [List.getElem?_append_left (by omega), ] at hc
              obtain ⟨c, hcc, hsc⟩ := hpt1 j yj hj hy
              rw [Nat.zero_add] at hcc
              rw [hcc] at hc
              obtain rfl : c = cj := by simpa using hc
              exact hsc
            · rw [List.getElem?_append_right (by omega : cur1.length ≤ j),
                List.getElem?_drop, hlen1] at hc
              rw [show xs.length + (j - xs.length) = j by omega, hy] at hc
              obtain rfl : yj = cj := by simpa using hc
              exact structEq_refl yj (wfList_mem hwfl2 (List.getElem?_mem hy))
    next xs ys =>
      obtain ⟨hxu, hxm⟩ : keysUnique xs = true ∧ Json.wfMembers xs = true := by
        simpa [Json.wf] using hwa
      obtain ⟨hyu, hym⟩ : keysUnique ys = true ∧ Json.wfMembers ys = true := by
        simpa [Json.wf] using hwb
      have F : ∀ (k : String) (v w : Json), (k, v) ∈ xs → lookupKey ys k = some w →
          ∃ c, applyPatch v (compare v w) = some c ∧ structEq c w = true := by
        intro k v w hm hl
        have hsz : sizeOf v ≤ N := by
          have := sizeOf_mem_members hm
          omega
        exact ih v w hsz (wfMembers_mem hxm hm)
          (wfMembers_mem hym (lookupKey_mem hl))
      obtain ⟨zs, hap, hz1, hz2, hz3, hz4⟩ := diffMembers_apply xs xs ys hxu hxu
        (fun k v hm => mem_lookupKey_unique hxu hm) F
      have hpsu : keysUnique (ys.filter fun kv => (lookupKey xs kv.1).isNone)
          = true := keysUnique_filter _ ys hyu
      have hnotmem : ∀ (k : String), (lookupKey xs k).isSome = true →
          ∀ kv ∈ ys.filter fun kv => (lookupKey xs kv.1).isNone, kv.1 ≠ k := by
        intro k hsome kv hkv he
        have := (List.mem_filter.mp hkv).2
        rw [he] at this
        rw [Option.isNone_iff_eq_none] at this
        rw [this] at hsome
        simp at hsome
      have hB : ∀ (k : String) (c : Json),
          lookupKey (setAll zs (ys.filter fun kv => (lookupKey xs kv.1).isNone)) k
            = some c →
          ∃ w, lookupKey ys k = some w ∧ structEq c w = true := by
        intro k c hc
        rcases hxk : lookupKey xs k with _ | v
        · by_cases hex : ∃ w, (k, w) ∈ ys.filter fun kv => (lookupKey xs kv.1).isNone
          · obtain ⟨w, hmw⟩ := hex
            rw [lookupKey_setAll_mem _ zs k w hpsu hmw] at hc
            obtain rfl : w = c := by simpa using hc
            have hky : (k, w) ∈ ys := (List.mem_filter.mp hmw).1
            exact ⟨w, mem_lookupKey_unique hyu hky,
              structEq_refl w (wfMembers_mem hym hky)⟩
          · rw [lookupKey_setAll_not_mem _ zs k ?_] at hc
            · have h4 := hz4 k (by rw [hc]; rfl)
              rw [hxk] at h4
              simp at h4
            · intro kv hkv he
              obtain ⟨k1, w1⟩ := kv
              simp only at he
              subst he
              exact hex ⟨w1, hkv⟩
        · rw [lookupKey_setAll_not_mem _ zs k
            (hnotmem k (by rw [hxk]; rfl))] at hc
          rcases hz3 k v (lookupKey_mem hxk) with ⟨w, hw, c', hc', hs⟩ | ⟨_, hnone⟩
          · rw [hc'] at hc
            obtain rfl : c' = c := by simpa using hc
            exact ⟨w, hw, hs⟩
          · rw [hnone] at hc
            exact Option.noConfusion hc
      have hA : ∀ (k : String) (w : Json), (k, w) ∈ ys →
          (lookupKey (setAll zs
            (ys.filter fun kv => (lookupKey xs kv.1).isNone)) k).isSome = true := by
        intro k w hkw
        rcases hxk : lookupKey xs k with _ | v
        · have hmw : (k, w) ∈ ys.filter fun kv => (lookupKey xs kv.1).isNone := by
            rw [List.mem_filter]
            exact ⟨hkw, by simp [hxk]⟩
          rw [lookupKey_setAll_mem _ zs k w hpsu hmw]
          rfl
        · rw [lookupKey_setAll_not_mem _ zs k (hnotmem k (by rw [hxk]; rfl))]
          rcases hz3 k v (lookupKey_mem hxk) with ⟨w', hw', c', hc', _⟩ | ⟨hnone, _⟩
          · rw [hc']
            rfl
          · rw [mem_lookupKey_unique hyu hkw] at hnone
            exact Option.noConfusion hnone
      refine ⟨.obj (setAll zs (ys.filter fun kv => (lookupKey xs kv.1).isNone)),
        ?_, ?_⟩
      · simp only [compare]
        rw [applyPatch_append, hap, Option.some_bind]
        exact applyPatch_addKeys _ zs
      · have hfu : keysUnique (setAll zs
            (ys.filter fun kv => (lookupKey xs kv.1).isNone)) = true :=
          keysUnique_setAll _ zs hz1
        simp only [structEq, Bool.and_eq_true]
        constructor
        · apply structEqMembers_intro
          intro k c hm
          exact hB k c (mem_lookupKey_unique hfu hm)
        · rw [keysIncl, List.all_eq_true]
          intro kv hkv
          obtain ⟨k, w⟩ := kv
          exact hA k w hkv

/-- Diff/apply round-trip: applying the diff of `a` against `b` to `a`
reproduces `b` up to structural equality. -/
theorem compare_roundtrip (a b : Json) (hwa : Json.wf a = true)
    (hwb : Json.wf b = true) :
    ∃ c, applyPatch a (compare a b) = some c ∧ structEq c b = true :=
  compareRoundFuel (sizeOf a) a b (Nat.le_refl _) hwa hwb

theorem diffMembers_nil :
    ∀ (sub full : List (String × Json)),
      (∀ (k : String) (v : Json), (k, v) ∈ sub → lookupKey full k = some v) →
      (∀ (k : String) (v : Json), (k, v) ∈ sub → compare v v = []) →
      diffMembers sub full = [] := by
  intro sub
  induction sub with
  | nil => intro full _ _; rfl
  | cons hd rest ih =>
    intro full hl hc
    obtain ⟨k, v⟩ := hd
    rw [diffMembers, hl k v (by simp)]
    simp only [hc k v (by simp), List.map_nil, List.nil_append]
    exact ih full (fun k' v' hm => hl k' v' (List.mem_cons_of_mem _ hm))
      (fun k' v' hm => hc k' v' (List.mem_cons_of_mem _ hm))

theorem elemDiff_nil :
    ∀ (xs : List Json) (i : Nat), (∀ x ∈ xs, compare x x = []) →
      elemDiff i xs xs = [] := by
  intro xs
  induction xs with
  | nil => intro i _; rfl
  | cons x rest ih =>
    intro i h
    rw [elemDiff, h x (by simp), List.map_nil, List.nil_append]
    exact ih (i + 1) (fun x' hm => h x' (by simp [hm]))

theorem compareSelfFuel :
    ∀ (N : Nat) (a : Json), sizeOf a ≤ N → Json.wf a = true →
      compare a a = [] := by
  intro N
  induction N with
  | zero =>
    intro a h _
    exact absurd h (by have := sizeOf_json_pos a; omega)
  | succ N ih =>
    intro a hN hw
    cases a with
    | obj xs =>
      obtain ⟨hxu, hxm⟩ : keysUnique xs = true ∧ Json.wfMembers xs = true := by
        simpa [Json.wf] using hw
      simp only [compare]
      rw [diffMembers_nil xs xs (fun k v hm => mem_lookupKey_unique hxu hm)
        (fun k v hm => ih v
          (by have := sizeOf_mem_members hm; omega)
          (wfMembers_mem hxm hm))]
      rw [List.filter_eq_nil_iff.mpr ?_]
      · simp
      · intro kv hkv
        obtain ⟨k1, v1⟩ := kv
        have := mem_lookupKey_isSome hkv
        simp only [Option.isNone_iff_eq_none]
        intro hnone
        rw [hnone] at this
        simp at this
    | arr xs =>
      have hwl : Json.wfList xs = true := by simpa [Json.wf] using hw
      simp only [compare]
      rw [elemDiff_nil xs 0 (fun x hm => ih x
        (by have := sizeOf_mem_list hm; omega)
        (wfList_mem hwl hm))]
      simp [Nat.sub_self, remOps, List.drop_length, addOps]
    | null => simp [compare, Json.beq]
    | bool b => simp [compare, Json.beq]
    | num n => simp [compare, Json.beq]
    | str s => simp [compare, Json.beq]
    | buf bs => simp [compare, Json.beq]

/-- No-op diff: diffing a well-formed document against itself yields the
empty patch set. -/
theorem compare_self (a : Json) (h : Json.wf a = true) : compare a a = [] :=
  compareSelfFuel (sizeOf a) a (Nat.le_refl _) h

/-! ### Frames and the wire codec (`serialise` / `deserialise`) -/

/-- `new Buffer(array)` coerces each element to a byte: numbers are taken
modulo 256, anything else becomes 0. -/
def jsByte : Json → Nat
  | .num n => (n % 256).toNat
  | _ => 0

/-- A byte rendered as a JSON number. -/
def numOfByte (b : Nat) : Json := .num (b : Int)

/-- The reviver's shape test on an object's members: a `type` member that
is the string `"Buffer"` and a `data` member that is an array; yields the
byte array. -/
def bufferData (kvs : List (String × Json)) : Option (List Json) :=
  match lookupKey kvs "type", lookupKey kvs "data" with
  | some (.str t), some (.arr ds) => if t = "Buffer" then some ds else none
  | _, _ => none

mutual

/-- The reviver inside `deserialise`: applied bottom-up by `JSON.parse`,
it turns every object whose `type` member is the string `"Buffer"` and
whose `data` member is an array into a binary `Buffer` value
(`new Buffer(v.data)`); all other values pass through. -/
def revive : Json → Json
  | .arr xs => .arr (reviveList xs)
  | .obj kvs =>
      match bufferData (reviveMembers kvs) with
      | some ds => .buf (ds.map jsByte)
      | none => .obj (reviveMembers kvs)
  | j => j

def reviveList : List Json → List Json
  | [] => []
  | x :: xs => revive x :: reviveList xs

def reviveMembers : List (String × Json) → List (String × Json)
  | [] => []
  | (k, v) :: kvs => (k, revive v) :: reviveMembers kvs

end

mutual

/-- The effect of `JSON.stringify` on runtime values before framing:
`Buffer` values serialise through `Buffer.toJSON` as
`{"type":"Buffer","data":[...]}`; everything else structurally. -/
def unrevive : Json → Json
  | .buf bs => .obj [("type", .str "Buffer"), ("data", .arr (bs.map numOfByte))]
  | .arr xs => .arr (unreviveList xs)
  | .obj kvs => .obj (unreviveMembers kvs)
  | j => j

def unreviveList : List Json → List Json
  | [] => []
  | x :: xs => unrevive x :: unreviveList xs

def unreviveMembers : List (String × Json) → List (String × Json)
  | [] => []
  | (k, v) :: kvs => (k, unrevive v) :: unreviveMembers kvs

end

/-- A transport frame: either well-formed JSON text, identified with its
parse tree, or a frame that is not valid JSON. -/
inductive Frame where
  | text (j : Json)
  | malformed (s : String)
  deriving Repr

/-- `serialise = JSON.stringify`. -/
def serialise (j : Json) : Frame := .text (unrevive j)

/-- `deserialise`: `JSON.parse` of the frame with the Buffer reviver;
fails (throws `SyntaxError` in the source) on a malformed frame. -/
def deserialise : Frame → Option Json
  | .malformed _ => none
  | .text r => some (revive r)

/-- The deep copy `JSON.parse(JSON.stringify(this._appConfig))` taken by
`_handle` before applying a patch — note: parsed without the reviver, so
stored `Buffer` values copy to their tagged-object form. -/
def deepCopy (j : Json) : Json := unrevive j

/-! ### Message builders -/

/-- Modelled from the spec: the correlation-token generator
(`randomPhrase`) produces "human-distinguishable unique strings"; the
model emits the `n`-th fresh token. -/
def tokenGen (n : Nat) : String := "phrase-" ++ natTok n

/-- `buildMsg(verb, msg, data, id = randomPhrase())`: the message object
`{verb, msg, data, id}`; `id` defaults to a fresh generator token exactly
when the caller passes none (JS `undefined`).  The source serialises the
result immediately; serialisation is applied at the send site here. -/
def buildMsg (verb msg : String) (data : Json) (id : Option Json)
    (fresh : String) : Json :=
  .obj [("verb", .str verb), ("msg", .str msg), ("data", data),
    ("id", id.getD (.str fresh))]

/-- Wire form of one patch operation (path as token list, see `Op`). -/
def opToJson : Op → Json
  | .add p v =>
      .obj [("op", .str "add"), ("path", .arr (p.map .str)), ("value", v)]
  | .remove p => .obj [("op", .str "remove"), ("path", .arr (p.map .str))]
  | .replace p v =>
      .obj [("op", .str "replace"), ("path", .arr (p.map .str)), ("value", v)]
  | .move f p =>
      .obj [("op", .str "move"), ("from", .arr (f.map .str)),
        ("path", .arr (p.map .str))]
  | .copy f p =>
      .obj [("op", .str "copy"), ("from", .arr (f.map .str)),
        ("path", .arr (p.map .str))]
  | .test p v =>
      .obj [("op", .str "test"), ("path", .arr (p.map .str)), ("value", v)]

def opsToJson (ops : List Op) : Json := .arr (ops.map opToJson)

def pathFromJson : Json → Option JsonPath
  | .arr ts => ts.mapM fun t =>
      match t with
      | .str s => some s
      | _ => none
  | _ => none

def opFromJson : Json → Option Op
  | .obj kvs =>
      match lookupKey kvs "op" with
      | some (.str o) =>
          if o = "add" then do
            let p ← (lookupKey kvs "path").bind pathFromJson
            let v ← lookupKey kvs "value"
            pure (.add p v)
          else if o = "remove" then do
            let p ← (lookupKey kvs "path").bind pathFromJson
            pure (.remove p)
          else if o = "replace" then do
            let p ← (lookupKey kvs "path").bind pathFromJson
            let v ← lookupKey kvs "value"
            pure (.replace p v)
          else if o = "move" then do
            let f ← (lookupKey kvs "from").bind pathFromJson
            let p ← (lookupKey kvs "path").bind pathFromJson
            pure (.move f p)
          else if o = "copy" then do
            let f ← (lookupKey kvs "from").bind pathFromJson
            let p ← (lookupKey kvs "path").bind pathFromJson
            pure (.copy f p)
          else if o = "test" then do
            let p ← (lookupKey kvs "path").bind pathFromJson
            let v ← lookupKey kvs "value"
            pure (.test p v)
          else none
      | _ => none
  | _ => none

/-- Decode a PATCH payload as a patch set; a payload that is not a valid
patch set makes the apply raise. -/
def jsonToOps : Json → Option (List Op)
  | .arr js => js.mapM opFromJson
  | _ => none

/-- `build.ERROR.NOTIFY.UNSUPPORTED_MESSAGE(id?)`. -/
def buildErrUnsupportedMessage (id : Option Json) (fresh : String) : Json :=
  buildMsg "NOTIFY" "ERROR" (.str "UNSUPPORTED_MESSAGE") id fresh

/-- `build.ERROR.NOTIFY.UNSUPPORTED_VERB(id?)`. -/
def buildErrUnsupportedVerb (id : Option Json) (fresh : String) : Json :=
  buildMsg "NOTIFY" "ERROR" (.str "UNSUPPORTED_VERB") id fresh

/-- `build.ERROR.NOTIFY.JSON_PARSE_ERROR(id?)`. -/
def buildErrJsonParse (id : Option Json) (fresh : String) : Json :=
  buildMsg "NOTIFY" "ERROR" (.str "JSON_PARSE_ERROR") id fresh

/-- `build.CONFIGURATION.READ(id)`. -/
def buildConfigRead (id : Option Json) (fresh : String) : Json :=
  buildMsg "READ" "CONFIGURATION" (.obj []) id fresh

/-- `build.CONFIGURATION.NOTIFY(config, id)`. -/
def buildConfigNotify (config : Json) (id : Option Json) (fresh : String) : Json :=
  buildMsg "NOTIFY" "CONFIGURATION" config id fresh

/-- `buildPatchConfiguration(oldConf, newConf, id)`: frames the diff of
the two configurations as a `CONFIGURATION`/`PATCH` message. -/
def buildPatchConfiguration (oldConf newConf : Json) (id : Option Json)
    (fresh : String) : Json :=
  buildMsg "PATCH" "CONFIGURATION" (opsToJson (compare oldConf newConf)) id fresh

/-! ### The peer session and inbound dispatch (`Client._handle`) -/

/-- Member access `m.k` on a decoded value (`undefined` = `none`). -/
def getField (m : Json) (k : String) : Option Json :=
  match m with
  | .obj kvs => lookupKey kvs k
  | _ => none

inductive SessionStatus where
  | Connecting
  | Open
  | Closed
  deriving Repr, DecidableEq

/-- One peer session: the stored configuration snapshot `_appConfig`, the
state of the correlation-token generator, and the connection status. -/
structure Session where
  appConfig : Json
  nextToken : Nat
  status : SessionStatus
  deriving Repr, DecidableEq

/-- How one inbound dispatch finished: a normal return, the
`return new Error(...)` taken after a decode failure, or an exception
escaping the handler (a failing patch apply). -/
inductive HandleResult where
  | completed
  | parseFailure
  | raised
  deriving Repr, DecidableEq

/-- Observable effects of one inbound dispatch: the successor state, the
messages sent back to the peer (each transmitted as `serialise` of the
listed object), the events emitted, and how the dispatch returned. -/
structure HandleOut where
  state : Session
  sent : List Json
  emitted : List (String × Json)
  result : HandleResult
  deriving Repr, DecidableEq

/-- An error reply `build.ERROR.NOTIFY.<code>(msg.id)`: correlated by the
original message's id when it has one, otherwise by a fresh token (the
`buildMsg` default fires on `undefined`). -/
def errorReplyOut (s : Session) (m : Json) (code : String) : HandleOut :=
  match getField m "id" with
  | some i =>
      { state := s
        sent := [buildMsg "NOTIFY" "ERROR" (.str code) (some i) (tokenGen s.nextToken)]
        emitted := []
        result := .completed }
  | none =>
      { state := { s with nextToken := s.nextToken + 1 }
        sent := [buildMsg "NOTIFY" "ERROR" (.str code) none (tokenGen s.nextToken)]
        emitted := []
        result := .completed }

/-- `Client._handle(data)`: decode the frame (replying
`JSON_PARSE_ERROR` and returning an `Error` on failure), then dispatch on
`msg.msg` / `msg.verb`.  `CONFIGURATION`/`PATCH` deep-copies `_appConfig`,
applies the patch set to the copy in place and emits `RECONFIGURE` with
the copy; it never assigns `_appConfig`. -/
def handle (s : Session) (frame : Frame) : HandleOut :=
  match deserialise frame with
  | none =>
      { state := { s with nextToken := s.nextToken + 1 }
        sent := [buildErrJsonParse none (tokenGen s.nextToken)]
        emitted := []
        result := .parseFailure }
  | some m =>
      if getField m "msg" = some (.str "CONFIGURATION") then
        if getField m "verb" = some (.str "NOTIFY") then
          { state := s, sent := [], emitted := [], result := .completed }
        else if getField m "verb" = some (.str "PATCH") then
          match (getField m "data").bind jsonToOps with
          | none => { state := s, sent := [], emitted := [], result := .raised }
          | some ops =>
              match applyOpsRun (deepCopy s.appConfig) (deepCopy s.appConfig)
                  true ops with
              | (dupF, true) =>
                  { state := s, sent := []
                    emitted := [("RECONFIGURE", dupF)]
                    result := .completed }
              | (_, false) =>
                  { state := s, sent := [], emitted := [], result := .raised }
        else errorReplyOut s m "UNSUPPORTED_VERB"
      else errorReplyOut s m "UNSUPPORTED_MESSAGE"

/-- `reconfigure({logger, port, appConfig})` checks the port and returns a
closure; this is the state transition performed when that closure is
invoked — the only assignment to `_appConfig` after construction. -/
def reconfigureClosure (s : Session) (newConfig : Json) : Session :=
  { s with appConfig := newConfig }

/-- `stop()`: close the connection. -/
def stop (s : Session) : Session := { s with status := .Closed }

/-! ### General dispatch facts -/

theorem errorReplyOut_state (s : Session) (m : Json) (code : String) :
    (errorReplyOut s m code).state.appConfig = s.appConfig ∧
    (errorReplyOut s m code).state.status = s.status := by
  rw [errorReplyOut]
  cases getField m "id" <;> exact ⟨rfl, rfl⟩

/-- No inbound dispatch ever changes the stored configuration or the
connection status. -/
theorem handle_preserves (s : Session) (f : Frame) :
    (handle s f).state.appConfig = s.appConfig ∧
    (handle s f).state.status = s.status := by
  rw [handle]
  split
  · exact ⟨rfl, rfl⟩
  · split
    · split
      · exact ⟨rfl, rfl⟩
      · split
        · split
          · exact ⟨rfl, rfl⟩
          · split
            · exact ⟨rfl, rfl⟩
            · exact ⟨rfl, rfl⟩
        · exact errorReplyOut_state ..
    · exact errorReplyOut_state ..

/-- Full description of a successful `CONFIGURATION`/`PATCH` dispatch. -/
theorem handle_patch_spec (s : Session) (f : Frame) (m d : Json) (P : List Op)
    (C' : Json)
    (hm : deserialise f = some m)
    (hmsg : getField m "msg" = some (.str "CONFIGURATION"))
    (hverb : getField m "verb" = some (.str "PATCH"))
    (hdata : getField m "data" = some d)
    (hops : jsonToOps d = some P)
    (happ : applyOpsRun (deepCopy s.appConfig) (deepCopy s.appConfig) true P
      = (C', true)) :
    handle s f = ⟨s, [], [("RECONFIGURE", C')], .completed⟩ := by
  rw [handle, hm]
  simp only [if_pos hmsg]
  rw [hverb]
  rw [if_neg (by decide), if_pos rfl, hdata]
  simp only [Option.some_bind]
  rw [hops]
  dsimp only
  rw [happ]

/-- Full description of a `CONFIGURATION`/`PATCH` dispatch whose apply
fails: the exception escapes, nothing is sent or emitted, the state is
untouched. -/
theorem handle_patch_fail_spec (s : Session) (f : Frame) (m d : Json)
    (P : List Op)
    (hm : deserialise f = some m)
    (hmsg : getField m "msg" = some (.str "CONFIGURATION"))
    (hverb : getField m "verb" = some (.str "PATCH"))
    (hdata : getField m "data" = some d)
    (hops : jsonToOps d = some P)
    (hfail : (applyOpsRun (deepCopy s.appConfig) (deepCopy s.appConfig) true P).2
      = false) :
    handle s f = ⟨s, [], [], .raised⟩ := by
  have happ : applyOpsRun (deepCopy s.appConfig) (deepCopy s.appConfig) true P
      = ((applyOpsRun (deepCopy s.appConfig) (deepCopy s.appConfig) true P).1,
        false) := by
    rw [← hfail]
  rw [handle, hm]
  simp only [if_pos hmsg]
  rw [hverb]
  rw [if_neg (by decide), if_pos rfl, hdata]
  simp only [Option.some_bind]
  rw [hops]
  dsimp only
  rw [happ]

theorem reviveList_nums (bs : List Nat) :
    reviveList (bs.map numOfByte) = bs.map numOfByte := by
  induction bs with
  | nil => rfl
  | cons b bs ih => simp [List.map_cons, reviveList, numOfByte, revive, ih]

theorem mapJsByte_nums :
    ∀ bs : List Nat, (∀ b ∈ bs, b < 256) →
      (bs.map numOfByte).map jsByte = bs := by
  intro bs
  induction bs with
  | nil => intro _; rfl
  | cons b bs ih =>
    intro h
    have hb : b < 256 := h b (by simp)
    have hmod : ((b : Int) % 256) = (b : Int) :=
      Int.emod_eq_of_lt (by positivity) (by exact_mod_cast hb)
    simp only [List.map_cons, numOfByte, jsByte, hmod, List.cons.injEq]
    exact ⟨by simp, ih fun b' hb' => h b' (by simp [hb'])⟩

/-! ### Concrete scenario values (from the spec's examples) -/

/-- The spec's initial document `{"a":1}`. -/
def exA : Json := .obj [("a", .num 1)]

/-- The spec's target document `{"a":2,"b":true}`. -/
def exB : Json := .obj [("a", .num 2), ("b", .bool true)]

/-- An open session seeded with `exA`. -/
def exS : Session := { appConfig := exA, nextToken := 0, status := .Open }

def exMsgPatchAB : Json :=
  buildMsg "PATCH" "CONFIGURATION" (opsToJson (compare exA exB))
    (some (.str "corr-1")) "t0"

def exFrameAB : Frame := .text exMsgPatchAB

/-- `{"a":1,"b":2}`. -/
def exD1 : Json := .obj [("a", .num 1), ("b", .num 2)]

/-- `{"a":1,"b":2,"c":3}`. -/
def exD2 : Json := .obj [("a", .num 1), ("b", .num 2), ("c", .num 3)]

def exFrame1 : Frame :=
  .text (buildMsg "PATCH" "CONFIGURATION" (opsToJson (compare exA exD1))
    (some (.str "corr-2")) "t0")

def exFrame2 : Frame :=
  .text (buildMsg "PATCH" "CONFIGURATION" (opsToJson (compare exD1 exD2))
    (some (.str "corr-3")) "t0")

/-- A patch referencing `/c/d` where `/c` does not exist in `{"a":1}`. -/
def exBadFrame : Frame :=
  .text (buildMsg "PATCH" "CONFIGURATION" (opsToJson [Op.remove ["c", "d"]])
    (some (.str "corr-4")) "t0")

/-! ### The claims -/

/-- C1 (counterexample): on the spec's own scenario (initial document
`{"a":1}`, patch to `{"a":2,"b":true}`) the dispatch emits `RECONFIGURE`
exactly once with the new document, but the session's snapshot is NOT
replaced: `_appConfig` still holds `{"a":1}`, not the new document, when
the observer runs. -/
theorem c1_counterexample :
    (handle exS exFrameAB).emitted = [("RECONFIGURE", exB)] ∧
    (handle exS exFrameAB).state.appConfig = exA ∧
    exA ≠ exB := by decide

/-- C1 (amended): for every open session whose inbound
`CONFIGURATION`/`PATCH` message carries a patch set that applies
successfully to a deep copy of the snapshot, a `RECONFIGURE` event
carrying the patched copy is emitted exactly once, nothing is sent back,
and the session's configuration snapshot is left unchanged (it is only
updated when the closure returned by `reconfigure()` is invoked). -/
theorem c1_patch_emits_once_snapshot_unchanged
    (s : Session) (f : Frame) (m d : Json) (P : List Op) (C' : Json)
    (hopen : s.status = .Open)
    (hm : deserialise f = some m)
    (hmsg : getField m "msg" = some (.str "CONFIGURATION"))
    (hverb : getField m "verb" = some (.str "PATCH"))
    (hdata : getField m "data" = some d)
    (hops : jsonToOps d = some P)
    (happ : applyOpsRun (deepCopy s.appConfig) (deepCopy s.appConfig) true P
      = (C', true)) :
    (handle s f).emitted = [("RECONFIGURE", C')] ∧
    (handle s f).sent = [] ∧
    (handle s f).result = .completed ∧
    (handle s f).state.appConfig = s.appConfig ∧
    (handle s f).state.status = .Open := by
  have h := handle_patch_spec s f m d P C' hm hmsg hverb hdata hops happ
  rw [h]
  exact ⟨rfl, rfl, rfl, rfl, hopen⟩

theorem c1_patch_emits_once_snapshot_unchanged_witness :
    (handle exS exFrameAB).emitted = [("RECONFIGURE", exB)] ∧
    (handle exS exFrameAB).sent = [] ∧
    (handle exS exFrameAB).result = .completed ∧
    (handle exS exFrameAB).state.appConfig = exS.appConfig ∧
    (handle exS exFrameAB).state.status = .Open :=
  c1_patch_emits_once_snapshot_unchanged exS exFrameAB
    (revive exMsgPatchAB) (opsToJson (compare exA exB)) (compare exA exB) exB
    (by decide) (by decide) (by decide) (by decide) (by decide) (by decide)
    (by decide)

/-- C2: the inbound dispatch procedure never reassigns the session's
stored configuration, on any frame whatsoever (including successful
`CONFIGURATION`/`PATCH` dispatches); closing the session does not touch
it either; invoking the closure returned by `reconfigure()` is the
operation that assigns it. -/
theorem c2_handle_never_writes_appConfig :
    (∀ (s : Session) (f : Frame), (handle s f).state.appConfig = s.appConfig) ∧
    (∀ s : Session, (stop s).appConfig = s.appConfig) ∧
    (∀ (s : Session) (c : Json), (reconfigureClosure s c).appConfig = c) :=
  ⟨fun s f => (handle_preserves s f).1, fun _ => rfl, fun _ _ => rfl⟩

/-- C3 (counterexample): initial document `{"a":1}`; patches
`P1 = diff({"a":1} → {"a":1,"b":2})` and
`P2 = diff({"a":1,"b":2} → {"a":1,"b":2,"c":3})` dispatched sequentially.
The claim says the snapshot then equals `{"a":1,"b":2,"c":3}`; in fact the
snapshot still equals `{"a":1}`, and the second dispatch applied `P2`
against a copy of the untouched `{"a":1}` (its emitted document is
`{"a":1,"c":3}`). -/
theorem c3_counterexample :
    (handle (handle exS exFrame1).state exFrame2).state.appConfig = exA ∧
    exA ≠ exD2 ∧
    (handle (handle exS exFrame1).state exFrame2).emitted
      = [("RECONFIGURE", .obj [("a", .num 1), ("c", .num 3)])] := by decide

/-- C3 (amended): two sequential `CONFIGURATION`/`PATCH` dispatches are
each applied against a deep copy of the session's snapshot, which no
dispatch updates; so the second patch's base state is the original
document, not the first patch's result, and after both dispatches the
snapshot still equals the initial document. -/
theorem c3_sequential_patches_against_original
    (s : Session) (f1 f2 : Frame) (m1 m2 d1 d2 : Json) (P1 P2 : List Op)
    (Q1 Q2 : Json)
    (h1m : deserialise f1 = some m1)
    (h1msg : getField m1 "msg" = some (.str "CONFIGURATION"))
    (h1verb : getField m1 "verb" = some (.str "PATCH"))
    (h1data : getField m1 "data" = some d1)
    (h1ops : jsonToOps d1 = some P1)
    (h1app : applyOpsRun (deepCopy s.appConfig) (deepCopy s.appConfig) true P1
      = (Q1, true))
    (h2m : deserialise f2 = some m2)
    (h2msg : getField m2 "msg" = some (.str "CONFIGURATION"))
    (h2verb : getField m2 "verb" = some (.str "PATCH"))
    (h2data : getField m2 "data" = some d2)
    (h2ops : jsonToOps d2 = some P2)
    (h2app : applyOpsRun (deepCopy s.appConfig) (deepCopy s.appConfig) true P2
      = (Q2, true)) :
    (handle s f1).emitted = [("RECONFIGURE", Q1)] ∧
    (handle s f1).state.appConfig = s.appConfig ∧
    (handle (handle s f1).state f2).emitted = [("RECONFIGURE", Q2)] ∧
    (handle (handle s f1).state f2).state.appConfig = s.appConfig := by
  have e1 := handle_patch_spec s f1 m1 d1 P1 Q1 h1m h1msg h1verb h1data h1ops h1app
  have e2 := handle_patch_spec s f2 m2 d2 P2 Q2 h2m h2msg h2verb h2data h2ops h2app
  rw [e1]
  exact ⟨rfl, rfl, by rw [e2], by rw [e2]⟩

theorem c3_sequential_patches_against_original_witness :
    (handle exS exFrame1).emitted
      = [("RECONFIGURE", .obj [("a", .num 1), ("b", .num 2)])] ∧
    (handle exS exFrame1).state.appConfig = exS.appConfig ∧
    (handle (handle exS exFrame1).state exFrame2).emitted
      = [("RECONFIGURE", .obj [("a", .num 1), ("c", .num 3)])] ∧
    (handle (handle exS exFrame1).state exFrame2).state.appConfig
      = exS.appConfig :=
  c3_sequential_patches_against_original exS exFrame1 exFrame2
    (revive (buildMsg "PATCH" "CONFIGURATION" (opsToJson (compare exA exD1))
      (some (.str "corr-2")) "t0"))
    (revive (buildMsg "PATCH" "CONFIGURATION" (opsToJson (compare exD1 exD2))
      (some (.str "corr-3")) "t0"))
    (opsToJson (compare exA exD1)) (opsToJson (compare exD1 exD2))
    (compare exA exD1) (compare exD1 exD2)
    (.obj [("a", .num 1), ("b", .num 2)]) (.obj [("a", .num 1), ("c", .num 3)])
    (by decide) (by decide) (by decide) (by decide) (by decide) (by decide)
    (by decide) (by decide) (by decide) (by decide) (by decide) (by decide)

/-- C4: when a `CONFIGURATION`/`PATCH` apply fails (an operation cannot
be satisfied, e.g. a remove at a missing path), the dispatch aborts:
nothing is emitted or sent, the exception escapes the handler, and the
session's snapshot is left unchanged — structurally equal to what it was.
No dispatch, failing or successful, ever exposes a partially patched
snapshot. -/
theorem c4_failed_apply_leaves_snapshot
    (s : Session) (f : Frame) (m d : Json) (P : List Op)
    (hwf : Json.wf s.appConfig = true)
    (hm : deserialise f = some m)
    (hmsg : getField m "msg" = some (.str "CONFIGURATION"))
    (hverb : getField m "verb" = some (.str "PATCH"))
    (hdata : getField m "data" = some d)
    (hops : jsonToOps d = some P)
    (hfail : (applyOpsRun (deepCopy s.appConfig) (deepCopy s.appConfig) true P).2
      = false) :
    (handle s f).state.appConfig = s.appConfig ∧
    structEq (handle s f).state.appConfig s.appConfig = true ∧
    (handle s f).emitted = [] ∧
    (handle s f).sent = [] ∧
    (handle s f).result = .raised ∧
    (∀ g : Frame, (handle s g).state.appConfig = s.appConfig) := by
  have h := handle_patch_fail_spec s f m d P hm hmsg hverb hdata hops hfail
  rw [h]
  exact ⟨rfl, structEq_refl _ hwf, rfl, rfl, rfl,
    fun g => (handle_preserves s g).1⟩

theorem c4_failed_apply_leaves_snapshot_witness :
    (handle exS exBadFrame).state.appConfig = exS.appConfig ∧
    structEq (handle exS exBadFrame).state.appConfig exS.appConfig = true ∧
    (handle exS exBadFrame).emitted = [] ∧
    (handle exS exBadFrame).sent = [] ∧
    (handle exS exBadFrame).result = .raised ∧
    (∀ g : Frame, (handle exS g).state.appConfig = exS.appConfig) :=
  c4_failed_apply_leaves_snapshot exS exBadFrame
    (revive (buildMsg "PATCH" "CONFIGURATION" (opsToJson [Op.remove ["c", "d"]])
      (some (.str "corr-4")) "t0"))
    (opsToJson [Op.remove ["c", "d"]]) [Op.remove ["c", "d"]]
    (by decide) (by decide) (by decide) (by decide) (by decide) (by decide)
    (by decide)

/-- C5: diff/apply round-trip — for all well-formed documents `A`, `B`,
applying `diff(A, B)` to `A` yields a document structurally equal to `B`;
and `diff(A, A)` is the empty patch set. -/
theorem c5_diff_apply_roundtrip :
    (∀ A B : Json, Json.wf A = true → Json.wf B = true →
      ∃ C, applyPatch A (compare A B) = some C ∧ structEq C B = true) ∧
    (∀ A : Json, Json.wf A = true → compare A A = []) :=
  ⟨compare_roundtrip, compare_self⟩

theorem c5_diff_apply_roundtrip_witness :
    (∃ C, applyPatch exA (compare exA exB) = some C ∧ structEq C exB = true) ∧
    compare exA exA = [] := by
  have h := c5_diff_apply_roundtrip
  exact ⟨h.1 exA exB (by decide) (by decide), h.2 exA (by decide)⟩

/-- C6: the patch apply, as invoked by the session, operates on a deep
copy: the session's stored document is unchanged on success and on
failure, and the document the observer receives is computed from the
copy, never from the stored document itself. -/
theorem c6_apply_input_untouched
    (s : Session) (f : Frame) (m d : Json) (P : List Op)
    (hm : deserialise f = some m)
    (hmsg : getField m "msg" = some (.str "CONFIGURATION"))
    (hverb : getField m "verb" = some (.str "PATCH"))
    (hdata : getField m "data" = some d)
    (hops : jsonToOps d = some P) :
    (handle s f).state.appConfig = s.appConfig ∧
    ((applyOpsRun (deepCopy s.appConfig) (deepCopy s.appConfig) true P).2 = true →
      (handle s f).emitted = [("RECONFIGURE",
        (applyOpsRun (deepCopy s.appConfig) (deepCopy s.appConfig) true P).1)]) ∧
    ((applyOpsRun (deepCopy s.appConfig) (deepCopy s.appConfig) true P).2 = false →
      (handle s f).emitted = [] ∧
      (handle s f).state.appConfig = s.appConfig) := by
  refine ⟨(handle_preserves s f).1, ?_, ?_⟩
  · intro hs
    have happ : applyOpsRun (deepCopy s.appConfig) (deepCopy s.appConfig) true P
        = ((applyOpsRun (deepCopy s.appConfig) (deepCopy s.appConfig) true P).1,
          (applyOpsRun (deepCopy s.appConfig) (deepCopy s.appConfig) true P).2)
        := rfl
    rw [hs] at happ
    have h := handle_patch_spec s f m d P _ hm hmsg hverb hdata hops happ
    rw [h]
  · intro hfl
    have h := handle_patch_fail_spec s f m d P hm hmsg hverb hdata hops hfl
    rw [h]
    exact ⟨rfl, rfl⟩

theorem c6_apply_input_untouched_witness :
    (handle exS exFrameAB).state.appConfig = exS.appConfig ∧
    (handle exS exFrameAB).emitted = [("RECONFIGURE",
      (applyOpsRun (deepCopy exS.appConfig) (deepCopy exS.appConfig) true
        (compare exA exB)).1)] := by
  have h := c6_apply_input_untouched exS exFrameAB
    (revive exMsgPatchAB) (opsToJson (compare exA exB)) (compare exA exB)
    (by decide) (by decide) (by decide) (by decide) (by decide)
  exact ⟨h.1, h.2.1 (by decide)⟩

/-- C7: a frame that is not valid JSON is answered with an
`ERROR`/`NOTIFY` message whose data is `JSON_PARSE_ERROR`; the handler
returns a non-fatal failure instead of letting the parse exception
escape, and the session stays open with its snapshot intact. -/
theorem c7_parse_error_recovery
    (s : Session) (f : Frame)
    (hopen : s.status = .Open) (hbad : deserialise f = none) :
    (handle s f).sent = [buildErrJsonParse none (tokenGen s.nextToken)] ∧
    getField (buildErrJsonParse none (tokenGen s.nextToken)) "data"
      = some (.str "JSON_PARSE_ERROR") ∧
    (handle s f).result = .parseFailure ∧
    (handle s f).result ≠ .raised ∧
    (handle s f).state.status = .Open ∧
    (handle s f).state.appConfig = s.appConfig := by
  rw [handle, hbad]
  refine ⟨rfl, by simp [buildErrJsonParse, buildMsg, getField, lookupKey],
    rfl, by simp, hopen, rfl⟩

theorem c7_parse_error_recovery_witness :
    (handle exS (.malformed "nope")).sent
      = [buildErrJsonParse none (tokenGen exS.nextToken)] ∧
    getField (buildErrJsonParse none (tokenGen exS.nextToken)) "data"
      = some (.str "JSON_PARSE_ERROR") ∧
    (handle exS (.malformed "nope")).result = .parseFailure ∧
    (handle exS (.malformed "nope")).result ≠ .raised ∧
    (handle exS (.malformed "nope")).state.status = .Open ∧
    (handle exS (.malformed "nope")).state.appConfig = exS.appConfig :=
  c7_parse_error_recovery exS (.malformed "nope") (by decide) (by decide)

/-- C8: a `CONFIGURATION` message with any verb other than `NOTIFY` or
`PATCH` is answered with `ERROR`/`NOTIFY` `UNSUPPORTED_VERB` correlated by
the original message's id; a message of any other kind is answered with
`UNSUPPORTED_MESSAGE` correlated the same way. -/
theorem c8_unsupported_dispatch :
    (∀ (s : Session) (f : Frame) (m : Json) (v : String) (i : Json),
      deserialise f = some m →
      getField m "msg" = some (.str "CONFIGURATION") →
      getField m "verb" = some (.str v) →
      v ≠ "NOTIFY" → v ≠ "PATCH" →
      getField m "id" = some i →
      (handle s f).sent = [buildMsg "NOTIFY" "ERROR" (.str "UNSUPPORTED_VERB")
        (some i) (tokenGen s.nextToken)] ∧
      getField (buildMsg "NOTIFY" "ERROR" (.str "UNSUPPORTED_VERB") (some i)
        (tokenGen s.nextToken)) "id" = some i) ∧
    (∀ (s : Session) (f : Frame) (m : Json) (k : String) (i : Json),
      deserialise f = some m →
      getField m "msg" = some (.str k) → k ≠ "CONFIGURATION" →
      getField m "id" = some i →
      (handle s f).sent = [buildMsg "NOTIFY" "ERROR" (.str "UNSUPPORTED_MESSAGE")
        (some i) (tokenGen s.nextToken)] ∧
      getField (buildMsg "NOTIFY" "ERROR" (.str "UNSUPPORTED_MESSAGE") (some i)
        (tokenGen s.nextToken)) "id" = some i) := by
  constructor
  · intro s f m v i hm hmsg hverb hv1 hv2 hid
    constructor
    · rw [handle, hm]
      simp only [if_pos hmsg]
      rw [hverb, if_neg (by simpa using hv1), if_neg (by simpa using hv2),
        errorReplyOut, hid]
    · simp [buildMsg, getField, lookupKey]
  · intro s f m k i hm hmsg hk hid
    constructor
    · rw [handle, hm]
      simp only [hmsg]
      rw [if_neg (by simpa using hk), errorReplyOut, hid]
    · simp [buildMsg, getField, lookupKey]

theorem c8_unsupported_dispatch_witness :
    ((handle exS (.text (buildMsg "READ" "CONFIGURATION" (.obj [])
        (some (.str "cid")) "t0"))).sent
      = [buildMsg "NOTIFY" "ERROR" (.str "UNSUPPORTED_VERB")
          (some (.str "cid")) (tokenGen exS.nextToken)] ∧
      getField (buildMsg "NOTIFY" "ERROR" (.str "UNSUPPORTED_VERB")
        (some (.str "cid")) (tokenGen exS.nextToken)) "id"
        = some (.str "cid")) ∧
    ((handle exS (.text (buildMsg "NOTIFY" "BOGUS" .null
        (some (.str "cid2")) "t0"))).sent
      = [buildMsg "NOTIFY" "ERROR" (.str "UNSUPPORTED_MESSAGE")
          (some (.str "cid2")) (tokenGen exS.nextToken)] ∧
      getField (buildMsg "NOTIFY" "ERROR" (.str "UNSUPPORTED_MESSAGE")
        (some (.str "cid2")) (tokenGen exS.nextToken)) "id"
        = some (.str "cid2")) := by
  have h := c8_unsupported_dispatch
  exact ⟨h.1 exS _ (revive (buildMsg "READ" "CONFIGURATION" (.obj [])
      (some (.str "cid")) "t0")) "READ" (.str "cid")
      (by decide) (by decide) (by decide) (by decide) (by decide) (by decide),
    h.2 exS _ (revive (buildMsg "NOTIFY" "BOGUS" .null
      (some (.str "cid2")) "t0")) "BOGUS" (.str "cid2")
      (by decide) (by decide) (by decide) (by decide)⟩

/-- C9: the decode step reconstructs every object of shape
`{"type":"Buffer","data":[...]}` as a binary `Buffer` value rather than a
generic object; encoding and decoding a message whose data contains
buffer values preserves the `verb`, `msg` and `id` fields exactly. -/
theorem c9_buffer_decode :
    (∀ (kvs : List (String × Json)) (ds : List Json),
      lookupKey (reviveMembers kvs) "type" = some (.str "Buffer") →
      lookupKey (reviveMembers kvs) "data" = some (.arr ds) →
      revive (.obj kvs) = .buf (ds.map jsByte)) ∧
    (∀ bs : List Nat, (∀ b ∈ bs, b < 256) →
      revive (unrevive (.buf bs)) = .buf bs) ∧
    (∀ (verb msg : String) (data : Json) (i fresh : String),
      ∃ m', deserialise (serialise (buildMsg verb msg data (some (.str i)) fresh))
          = some m' ∧
        getField m' "verb" = some (.str verb) ∧
        getField m' "msg" = some (.str msg) ∧
        getField m' "id" = some (.str i)) := by
  refine ⟨?_, ?_, ?_⟩
  · intro kvs ds h1 h2
    have hbd : bufferData (reviveMembers kvs) = some ds := by
      rw [bufferData, h1, h2]
      simp
    rw [revive, hbd]
  · intro bs h
    rw [unrevive, revive]
    have hbd : bufferData (reviveMembers [("type", .str "Buffer"),
        ("data", .arr (bs.map numOfByte))]) = some (bs.map numOfByte) := by
      simp [reviveMembers, revive, reviveList_nums, bufferData, lookupKey]
    rw [hbd]
    dsimp only
    rw [mapJsByte_nums bs h]
  · intro verb msg data i fresh
    refine ⟨revive (unrevive (buildMsg verb msg data (some (.str i)) fresh)),
      rfl, ?_, ?_, ?_⟩ <;>
      simp [buildMsg, unrevive, unreviveMembers, revive, reviveMembers,
        bufferData, getField, lookupKey]

theorem c9_buffer_decode_witness :
    revive (.obj [("type", .str "Buffer"), ("data", .arr [.num 1, .num 2])])
      = .buf ([Json.num 1, Json.num 2].map jsByte) ∧
    revive (unrevive (.buf [0, 255])) = .buf [0, 255] ∧
    (∃ m', deserialise (serialise (buildMsg "PATCH" "CONFIGURATION"
        (.obj [("blob", .buf [7])]) (some (.str "cid3")) "t0")) = some m' ∧
      getField m' "verb" = some (.str "PATCH") ∧
      getField m' "msg" = some (.str "CONFIGURATION") ∧
      getField m' "id" = some (.str "cid3")) := by
  have h := c9_buffer_decode
  exact ⟨h.1 [("type", .str "Buffer"), ("data", .arr [.num 1, .num 2])]
      [.num 1, .num 2] (by decide) (by decide),
    h.2.1 [0, 255] (by decide),
    h.2.2 "PATCH" "CONFIGURATION" (.obj [("blob", .buf [7])]) "cid3" "t0"⟩

/-- C10: every builder-produced message carries a present, defined `id`:
the caller's id when one was given, and a fresh token from the
correlation-token generator when it was omitted — including the
`JSON_PARSE_ERROR` reply built with no id on decode failure. -/
theorem c10_id_always_present :
    (∀ (verb msg : String) (data : Json) (fresh : String),
      getField (buildMsg verb msg data none fresh) "id" = some (.str fresh) ∧
      ∃ t, serialise (buildMsg verb msg data none fresh) = .text t ∧
        getField t "id" = some (.str fresh)) ∧
    (∀ (verb msg : String) (data i : Json) (fresh : String),
      getField (buildMsg verb msg data (some i) fresh) "id" = some i) ∧
    (∀ (s : Session) (f : Frame), deserialise f = none →
      (handle s f).sent = [buildErrJsonParse none (tokenGen s.nextToken)] ∧
      getField (buildErrJsonParse none (tokenGen s.nextToken)) "id"
        = some (.str (tokenGen s.nextToken))) := by
  refine ⟨?_, ?_, ?_⟩
  · intro verb msg data fresh
    constructor
    · simp [buildMsg, getField, lookupKey]
    · refine ⟨unrevive (buildMsg verb msg data none fresh), rfl, ?_⟩
      simp [buildMsg, unrevive, unreviveMembers, getField, lookupKey]
  · intro verb msg data i fresh
    simp [buildMsg, getField, lookupKey]
  · intro s f hbad
    rw [handle, hbad]
    exact ⟨rfl, by simp [buildErrJsonParse, buildMsg, getField, lookupKey]⟩

theorem c10_id_always_present_witness :
    (handle exS (.malformed "not json")).sent
      = [buildErrJsonParse none (tokenGen exS.nextToken)] ∧
    getField (buildErrJsonParse none (tokenGen exS.nextToken)) "id"
      = some (.str (tokenGen exS.nextToken)) :=
  c10_id_always_present.2.2 exS (.malformed "not json") (by decide)

end Ctl
